import Mathlib

/-!
Verification of the navi-calendar-bot discovery/reconciliation pipeline.

The two scripts `bo3_calendar.py` and `navi_calendar.py` are shallowly
embedded here.  Strings are modelled as lists of Unicode code points
(`List Nat`); Python's `str` case/whitespace operations are modelled on the
ASCII range, which covers every character the scripts manipulate
(month names, digits, punctuation; the em-dash U+2014 is carried through
unchanged by the case functions).  Machine integers do not occur: Python's
ints are unbounded, as are Lean's `Nat`/`Int`.  Fallible steps return
`Option`; a Python `continue` on a row is `none`.
-/

namespace NaviBot

/-- Code points of a string literal (used to write embedded constants). -/
def strCodes (s : String) : List Nat := s.toList.map Char.toNat

/-- Python `\s` / `str.strip` whitespace, ASCII range. -/
def isWsCode (c : Nat) : Bool :=
  decide (c = 32 ∨ c = 9 ∨ c = 10 ∨ c = 11 ∨ c = 12 ∨ c = 13)

/-- ASCII decimal digit (Python `\d`, ASCII range). -/
def isDigitCode (c : Nat) : Bool := decide (48 ≤ c ∧ c ≤ 57)

/-- ASCII letter (the cased characters the scripts manipulate). -/
def isAlphaCode (c : Nat) : Bool :=
  decide ((65 ≤ c ∧ c ≤ 90) ∨ (97 ≤ c ∧ c ≤ 122))

/-- ASCII letter or digit or underscore: Python regex word character `\w`. -/
def isWordCode (c : Nat) : Bool := isAlphaCode c || isDigitCode c || c == 95

/-- Python `str.lower` on one code point (ASCII). -/
def lowerCode (c : Nat) : Nat := if 65 ≤ c ∧ c ≤ 90 then c + 32 else c

/-- Python `str.upper` on one code point (ASCII). -/
def upperCode (c : Nat) : Nat := if 97 ≤ c ∧ c ≤ 122 then c - 32 else c

/-- Python `str.lower` on a whole string. -/
def lowerStr (l : List Nat) : List Nat := l.map lowerCode

/-- Python `str.upper` on a whole string. -/
def upperStr (l : List Nat) : List Nat := l.map upperCode

/-- Python `str.strip()` : drop leading and trailing whitespace. -/
def pyStrip (l : List Nat) : List Nat :=
  ((l.dropWhile isWsCode).reverse.dropWhile isWsCode).reverse

/-- The `.replace(".", " ")` step of `normalize_month_day`. -/
def replaceDot (l : List Nat) : List Nat :=
  l.map (fun c => if c = 46 then 32 else c)

/-- One-pass form of Python `re.sub(r"\s+", " ", t)` : `inRun` records whether
the previous character was whitespace, so each whitespace run becomes one
space. -/
def collapseWsAux (inRun : Bool) : List Nat → List Nat
  | [] => []
  | c :: cs =>
    if isWsCode c then
      (if inRun then collapseWsAux true cs else 32 :: collapseWsAux true cs)
    else c :: collapseWsAux false cs

/-- Python `re.sub(r"\s+", " ", t)` : collapse every whitespace run to one space. -/
def collapseWs (l : List Nat) : List Nat := collapseWsAux false l

/-- Accumulator form of Python `str.split()` (split on whitespace runs,
no empty pieces); `cur` is the current word reversed. -/
def pySplitAux (cur : List Nat) : List Nat → List (List Nat)
  | [] => if cur = [] then [] else [cur.reverse]
  | c :: cs =>
    if isWsCode c then
      if cur = [] then pySplitAux [] cs else cur.reverse :: pySplitAux [] cs
    else pySplitAux (c :: cur) cs

/-- Python `str.split()` with no argument. -/
def pySplit (l : List Nat) : List (List Nat) := pySplitAux [] l

/-- Python `" ".join(parts)`, and `sep.join` in general. -/
def joinSep (sep : List Nat) : List (List Nat) → List Nat
  | [] => []
  | [w] => w
  | w :: ws => w ++ sep ++ joinSep sep ws

/-- One step of Python `str.title()` : `prevAlpha` records whether the
previous character was cased.  A cased character is uppercased after a
non-cased character and lowercased otherwise. -/
def titleChars (prevAlpha : Bool) : List Nat → List Nat
  | [] => []
  | c :: cs =>
    (if isAlphaCode c then (if prevAlpha then lowerCode c else upperCode c) else c)
      :: titleChars (isAlphaCode c) cs

/-- Python `str.title()`. -/
def pyTitle (l : List Nat) : List Nat := titleChars false l

/-- The `MONTHS_EN` table of `bo3_calendar.py` (keys lowercase, values the
canonical forms). -/
def MONTHS_EN : List (List Nat × List Nat) :=
  [ (strCodes (r"jan"), strCodes (r"Jan")), (strCodes (r"feb"), strCodes (r"Feb")),
    (strCodes (r"mar"), strCodes (r"Mar")), (strCodes (r"apr"), strCodes (r"Apr")),
    (strCodes (r"may"), strCodes (r"May")), (strCodes (r"jun"), strCodes (r"Jun")),
    (strCodes (r"jul"), strCodes (r"Jul")), (strCodes (r"aug"), strCodes (r"Aug")),
    (strCodes (r"sep"), strCodes (r"Sep")), (strCodes (r"sept"), strCodes (r"Sep")),
    (strCodes (r"oct"), strCodes (r"Oct")), (strCodes (r"nov"), strCodes (r"Nov")),
    (strCodes (r"dec"), strCodes (r"Dec")),
    (strCodes (r"january"), strCodes (r"January")),
    (strCodes (r"february"), strCodes (r"February")),
    (strCodes (r"march"), strCodes (r"March")),
    (strCodes (r"april"), strCodes (r"April")),
    (strCodes (r"june"), strCodes (r"June")),
    (strCodes (r"july"), strCodes (r"July")),
    (strCodes (r"august"), strCodes (r"August")),
    (strCodes (r"september"), strCodes (r"September")),
    (strCodes (r"october"), strCodes (r"October")),
    (strCodes (r"november"), strCodes (r"November")),
    (strCodes (r"december"), strCodes (r"December")) ]

/-- Association-list lookup, Python `dict` access `MONTHS_EN[m]`. -/
def tableLookup (k : List Nat) : List (List Nat × List Nat) → Option (List Nat)
  | [] => none
  | (k', v) :: rest => if k' = k then some v else tableLookup k rest

/-- `normalize_month_day` of `bo3_calendar.py`:
strip, dots to spaces, collapse whitespace, canonicalise a leading month
name through `MONTHS_EN`, and title-case the result. -/
def normalize_month_day (text : List Nat) : List Nat :=
  let t := collapseWs (replaceDot (pyStrip text))
  let parts := pySplit t
  match parts with
  | [] => []
  | p0 :: rest =>
    let parts' :=
      match tableLookup (lowerStr p0) MONTHS_EN with
      | some v => v :: rest
      | none => p0 :: rest
    pyTitle (joinSep [32] parts')


/-- The cased-state of `titleChars` after reading `l`, starting from `b`. -/
def endAlpha (b : Bool) : List Nat → Bool
  | [] => b
  | c :: cs => endAlpha (isAlphaCode c) cs

/-- A word as produced by splitting: nonempty and whitespace-free. -/
def WordOK (w : List Nat) : Prop := w ≠ [] ∧ ∀ c ∈ w, isWsCode c = false


/-- Proleptic-Gregorian leap-year rule (Python's `calendar`/`datetime`). -/
def isLeap (y : Nat) : Bool := decide (y % 4 = 0 ∧ (y % 100 ≠ 0 ∨ y % 400 = 0))

/-- Length of month `m` (1-12) in year `y`. -/
def daysInMonth (y m : Nat) : Nat :=
  if m = 2 then (if isLeap y then 29 else 28)
  else if m = 4 ∨ m = 6 ∨ m = 9 ∨ m = 11 then 30
  else 31

/-- Days of year `y` that precede the first day of month `m`. -/
def daysBeforeMonth (y : Nat) : Nat → Nat
  | 0 => 0
  | 1 => 0
  | m + 1 => daysBeforeMonth y m + daysInMonth y m

/-- Total days of year `y`. -/
def daysInYear (y : Nat) : Nat := daysBeforeMonth y 13

/-- Total days of the years `1 .. y` (closed Gregorian form: 365 per year
plus one per leap year, counted by the floor divisions). -/
def daysUpTo (y : Nat) : Nat := 365 * y + y / 4 - y / 100 + y / 400

/-- A wall-clock datetime (what Python's naive `datetime` carries, to the
minute: the scripts never produce seconds). -/
structure DT where
  year : Nat
  month : Nat
  day : Nat
  hour : Nat
  minute : Nat
  deriving DecidableEq, Repr

/-- A calendar date (Python's `date`). -/
structure Ymd where
  year : Nat
  month : Nat
  day : Nat
  deriving DecidableEq, Repr

/-- Python `date` ordering, lexicographic. -/
def ymdLe (a b : Ymd) : Bool :=
  decide (a.year < b.year ∨ (a.year = b.year ∧
    (a.month < b.month ∨ (a.month = b.month ∧ a.day ≤ b.day))))

/-- Strict `date` ordering. -/
def ymdLt (a b : Ymd) : Bool := ymdLe a b && !(a == b)

/-- Day number of a calendar date, counting 0001-01-01 as day 0. -/
def dayNumber (y m d : Nat) : Nat := daysUpTo (y - 1) + daysBeforeMonth y m + (d - 1)

/-- Absolute minute count of a wall-clock datetime. -/
def toMinutes (t : DT) : Nat :=
  1440 * dayNumber t.year t.month t.day + 60 * t.hour + t.minute

/-- Day of week, 0 = Sunday (0001-01-01 was a Monday in the proleptic
Gregorian calendar). -/
def dayOfWeek (y m d : Nat) : Nat := (dayNumber y m d + 1) % 7

/-- Calendar day of the last Sunday of month `m` of year `y`. -/
def lastSundayDay (y m : Nat) : Nat :=
  daysInMonth y m - dayOfWeek y m (daysInMonth y m)

/-- Whether a UTC instant falls in the EU summer-time window (last Sunday of
March 01:00 UTC up to last Sunday of October 01:00 UTC). -/
def kyivDst (t : DT) : Bool :=
  decide (toMinutes ⟨t.year, 3, lastSundayDay t.year 3, 1, 0⟩ ≤ toMinutes t ∧
          toMinutes t < toMinutes ⟨t.year, 10, lastSundayDay t.year 10, 1, 0⟩)

/-- UTC offset of Europe/Kyiv, in minutes, at a UTC instant: EEST (+3) in
summer, EET (+2) otherwise. -/
def kyivOffset (t : DT) : Nat := if kyivDst t then 180 else 120

/-- The next calendar day (time fields kept). -/
def nextDay : DT → DT
  | ⟨y, m, d, hh, mi⟩ =>
    if d < daysInMonth y m then ⟨y, m, d + 1, hh, mi⟩
    else if m < 12 then ⟨y, m + 1, 1, hh, mi⟩
    else ⟨y + 1, 1, 1, hh, mi⟩

/-- Advance `k` calendar days. -/
def addDays : Nat → DT → DT
  | 0, t => t
  | k + 1, t => addDays k (nextDay t)

/-- Python `datetime + timedelta(minutes=delta)` on the wall-clock fields
(pytz-style arithmetic: the tzinfo is untouched, only the naive fields move). -/
def addMinutes (t : DT) (delta : Nat) : DT :=
  let total := t.hour * 60 + t.minute + delta
  let t' := addDays (total / 1440) ⟨t.year, t.month, t.day, 0, 0⟩
  ⟨t'.year, t'.month, t'.day, (total % 1440) / 60, total % 60⟩

/-- `pytz.utc.localize(naive).astimezone(kyiv)` : shift the wall clock by
Kyiv's offset at that UTC instant. -/
def utcToKyiv (t : DT) : DT := addMinutes t (kyivOffset t)

/-- Field bounds of a datetime Python's constructor accepts (year upper
bound handled separately in `mkDateTime`). -/
def DTOk (t : DT) : Prop :=
  1 ≤ t.year ∧ 1 ≤ t.month ∧ t.month ≤ 12 ∧ 1 ≤ t.day ∧
    t.day ≤ daysInMonth t.year t.month ∧ t.hour ≤ 23 ∧ t.minute ≤ 59

instance (t : DT) : Decidable (DTOk t) := by unfold DTOk; infer_instance

/-- Python `datetime(y, m, d, hh, mi)` : `some` on valid fields, `none` for
the `ValueError` the scripts catch. -/
def mkDateTime (y m d hh mi : Nat) : Option DT :=
  if 1 ≤ y ∧ y ≤ 9999 ∧ 1 ≤ m ∧ m ≤ 12 ∧ 1 ≤ d ∧ d ≤ daysInMonth y m ∧ hh ≤ 23 ∧ mi ≤ 59
  then some ⟨y, m, d, hh, mi⟩ else none

/-- Substring test (Python `in` on strings). -/
def containsSub (needle : List Nat) : List Nat → Bool
  | [] => needle.isEmpty
  | c :: t => needle.isPrefixOf (c :: t) || containsSub needle t

/-- Case-insensitive prefix test (for `re.I` literal matching). -/
def ciPrefix (pat l : List Nat) : Bool := (lowerStr pat).isPrefixOf (lowerStr l)

/-- First `some` over a candidate list (regex backtracking alternatives). -/
def firstSome {α β : Type} (f : α → Option β) : List α → Option β
  | [] => none
  | x :: xs => (f x).orElse (fun _ => firstSome f xs)

/-- Python `str.replace(old, "")` one-pass scan; `skip` consumes a matched
occurrence (non-overlapping, left to right). -/
def removeAllAux (old : List Nat) (skip : Nat) : List Nat → List Nat
  | [] => []
  | c :: cs =>
    match skip with
    | k + 1 => removeAllAux old k cs
    | 0 =>
      if old.isPrefixOf (c :: cs) then removeAllAux old (old.length - 1) cs
      else c :: removeAllAux old 0 cs

/-- Python `s.replace(old, "")` (the scripts only replace with the empty
string); `old = ""` is the identity, as in Python. -/
def removeAll (old l : List Nat) : List Nat := if old = [] then l else removeAllAux old 0 l

/-- Tail of the time regex after the `\d{1,2}` digits: `:` then exactly two
digits then a word boundary. -/
def timeTail (d1 : List Nat) : List Nat → Option (List Nat)
  | 58 :: a :: b :: rest' =>
    if isDigitCode a && isDigitCode b then
      match rest' with
      | [] => some (d1 ++ [58, a, b])
      | c :: _ => if isWordCode c then none else some (d1 ++ [58, a, b])
    else none
  | _ => none

/-- The time regex `\b(\d{1,2}:\d{2})\b` anchored at the head of `l`
(boundary before the head already checked by the caller); greedy `{1,2}`
tries two digits first. -/
def timeAt (l : List Nat) : Option (List Nat) :=
  match l with
  | a :: rest =>
    if isDigitCode a then
      (match rest with
       | b :: rest2 => if isDigitCode b then timeTail [a, b] rest2 else none
       | [] => none).orElse (fun _ => timeTail [a] rest)
    else none
  | [] => none

/-- `re.search` scan for the time regex; `prevWord` tracks whether the
previous character is a word character (for `\b`). -/
def searchTimeAux (prevWord : Bool) : List Nat → Option (List Nat)
  | [] => none
  | c :: cs =>
    (if prevWord then none else timeAt (c :: cs)).orElse
      (fun _ => searchTimeAux (isWordCode c) cs)

/-- `re.search(r'\b(\d{1,2}:\d{2})\b', text)`, the matched `HH:MM`. -/
def searchTime (l : List Nat) : Option (List Nat) := searchTimeAux false l

/-- Month alternatives of the date regex, in the pattern's order
(`Jan|Feb|Mar|Apr|May|Jun|Jul|Aug|Sep|Sept|Oct|Nov|Dec`). -/
def MONTH_ALTS : List (List Nat) :=
  [ strCodes (r"Jan"), strCodes (r"Feb"), strCodes (r"Mar"), strCodes (r"Apr"),
    strCodes (r"May"), strCodes (r"Jun"), strCodes (r"Jul"), strCodes (r"Aug"),
    strCodes (r"Sep"), strCodes (r"Sept"), strCodes (r"Oct"), strCodes (r"Nov"),
    strCodes (r"Dec") ]

/-- Tail of the date regex after the month alternative:
`[a-z]*\s+\d{1,2}\b` under `re.I` (so the letter class is both cases);
returns the matched tail characters. -/
def mdTailAt (l : List Nat) : Option (List Nat) :=
  let letters := l.takeWhile isAlphaCode
  let rest1 := l.drop letters.length
  let ws := rest1.takeWhile isWsCode
  if ws.length = 0 then none
  else
    match rest1.drop ws.length with
    | a :: b :: rest4 =>
      if isDigitCode a then
        if isDigitCode b then
          match rest4 with
          | [] => some (letters ++ ws ++ [a, b])
          | c :: _ => if isWordCode c then none else some (letters ++ ws ++ [a, b])
        else if isWordCode b then none else some (letters ++ ws ++ [a])
      else none
    | [a] => if isDigitCode a then some (letters ++ ws ++ [a]) else none
    | [] => none

/-- The date regex's alternation, tried in pattern order at one position. -/
def mdAlts : List (List Nat) → List Nat → Option (List Nat)
  | [], _ => none
  | alt :: alts, l =>
    (if ciPrefix alt l then (mdTailAt (l.drop alt.length)).map (fun tl => l.take alt.length ++ tl)
     else none).orElse (fun _ => mdAlts alts l)

/-- `re.search` scan for
`\b(Jan|Feb|Mar|Apr|May|Jun|Jul|Aug|Sep|Sept|Oct|Nov|Dec)[a-z]*\s+\d{1,2}\b`
with `re.I`; returns the whole match (`group(0)`). -/
def searchMdAux (prevWord : Bool) : List Nat → Option (List Nat)
  | [] => none
  | c :: cs =>
    (if prevWord then none else mdAlts MONTH_ALTS (c :: cs)).orElse
      (fun _ => searchMdAux (isWordCode c) cs)

/-- The month/day regex search of `parse_hhmm_and_md_from_text`. -/
def searchMonthDay (l : List Nat) : Option (List Nat) := searchMdAux false l

/-- `parse_hhmm_and_md_from_text` of `bo3_calendar.py`: a time token and a
month-day token must both be present; the date half is normalized. -/
def parse_hhmm_and_md_from_text (text : List Nat) : Option (List Nat × List Nat) :=
  match searchTime text, searchMonthDay text with
  | some t, some d => some (normalize_month_day d, t)
  | _, _ => none
/-- Character class `[A-Za-z0-9 .\-]` of the team regex. -/
def isTeamChar (c : Nat) : Bool :=
  isAlphaCode c || isDigitCode c || c == 32 || c == 46 || c == 45

/-- After `vs` : `\s+` (greedy, backtracking) then the second team group
`[A-Za-z0-9 .\-]+` (greedy).  `s2` is the whitespace count being tried. -/
def vsWsTry : Nat → List Nat → Option (List Nat)
  | 0, _ => none
  | s2 + 1, rest =>
    let rest2 := rest.drop (s2 + 1)
    let g2 := rest2.takeWhile isTeamChar
    if g2.length ≥ 1 then some g2 else vsWsTry s2 rest

/-- `vs\s+([A-Za-z0-9 .\-]+)` at the head of `l` (case-insensitive `vs`). -/
def vsAfter (l : List Nat) : Option (List Nat) :=
  match l with
  | v :: s :: rest =>
    if lowerCode v == 118 && lowerCode s == 115 then
      vsWsTry ((rest.takeWhile isWsCode).length) rest
    else none
  | _ => none

/-- Backtracking over the `\s+` run before `vs`; `s1` is the count tried. -/
def vsS1Try (g1 : List Nat) : Nat → List Nat → Option (List Nat × List Nat)
  | 0, _ => none
  | s1 + 1, rest =>
    match vsAfter (rest.drop (s1 + 1)) with
    | some g2 => some (g1, g2)
    | none => vsS1Try g1 s1 rest

/-- Backtracking over the greedy first group; `a1` is the length tried. -/
def vsG1Try (l : List Nat) : Nat → Option (List Nat × List Nat)
  | 0 => none
  | a1 + 1 =>
    let g1 := l.take (a1 + 1)
    let rest := l.drop (a1 + 1)
    match vsS1Try g1 ((rest.takeWhile isWsCode).length) rest with
    | some r => some r
    | none => vsG1Try l a1

/-- `([A-Za-z0-9 .\-]+)\s+vs\s+([A-Za-z0-9 .\-]+)` anchored at the head:
the first group is greedy (longest first), as `re` backtracks. -/
def vsAt (l : List Nat) : Option (List Nat × List Nat) :=
  vsG1Try l ((l.takeWhile isTeamChar).length)

/-- `re.search` of the team pattern (leftmost start wins). -/
def searchVs : List Nat → Option (List Nat × List Nat)
  | [] => none
  | c :: cs => (vsAt (c :: cs)).orElse (fun _ => searchVs cs)

/-- Tournament keywords of `raw_scan_matches`, in pattern order. -/
def TOUR_ALTS : List (List Nat) :=
  [ strCodes (r"StarSeries"), strCodes (r"BLAST"), strCodes (r"ESL"), strCodes (r"IEM"),
    strCodes (r"Major"), strCodes (r"Qualifier"), strCodes (r"Cup"), strCodes (r"League"),
    strCodes (r"Open"), strCodes (r"Showdown") ]

/-- Not `<`, `>` or newline: the `[^<>\n]` class. -/
def notAngleNl (c : Nat) : Bool := !(c == 60 || c == 62 || c == 10)

/-- The tournament pattern anchored at one position: first keyword that
matches case-insensitively, then `[^<>\n]{0,60}` greedy (never fails). -/
def tourAt : List (List Nat) → List Nat → Option (List Nat)
  | [], _ => none
  | alt :: alts, l =>
    if ciPrefix alt l then
      some (l.take alt.length ++ ((l.drop alt.length).takeWhile notAngleNl).take 60)
    else tourAt alts l

/-- `re.search(r'(StarSeries|BLAST|ESL|IEM|Major|Qualifier|Cup|League|Open|Showdown)[^<>\n]{0,60}', chunk, re.I)`. -/
def searchTour : List Nat → Option (List Nat)
  | [] => none
  | c :: cs => (tourAt TOUR_ALTS (c :: cs)).orElse (fun _ => searchTour cs)

/-- One position of `re.search(r'Natus\s+Vincere|NAVI', chunk, re.I)`. -/
def naviAt (l : List Nat) : Bool :=
  (ciPrefix (strCodes (r"natus")) l &&
    (let r := l.drop 5
     let ws := r.takeWhile isWsCode
     decide (ws.length ≥ 1) && ciPrefix (strCodes (r"vincere")) (r.drop ws.length))) ||
  ciPrefix (strCodes (r"navi")) l

/-- Existence of a match of `Natus\s+Vincere|NAVI` (the script only tests
truthiness of the search). -/
def searchNavi : List Nat → Bool
  | [] => false
  | c :: cs => naviAt (c :: cs) || searchNavi cs

/-- The check of `parse_table_rows` :
`"Natus Vincere" in raw_text or "NAVI" in raw_text.upper()` (the row is
dropped when this is false). -/
def containsNaviRaw (raw : List Nat) : Bool :=
  containsSub (strCodes (r"Natus Vincere")) raw || containsSub (strCodes (r"NAVI")) (upperStr raw)

/-- Where `$` may match: end of string, or before one trailing newline. -/
def endAnchor (l : List Nat) : List Nat :=
  match l.reverse with
  | 10 :: rest => rest.reverse
  | _ => l

/-- `re.search(r"(\d{2})-(\d{2})-(\d{4})$", href)`, returning `int(group(3))`. -/
def hrefYearSuffix (href : List Nat) : Option Nat :=
  match (endAnchor href).reverse with
  | y4 :: y3 :: y2 :: y1 :: h2 :: m2 :: m1 :: h1 :: d2 :: d1 :: _ =>
    if isDigitCode d1 && isDigitCode d2 && h1 == 45 && isDigitCode m1 && isDigitCode m2 &&
        h2 == 45 && isDigitCode y1 && isDigitCode y2 && isDigitCode y3 && isDigitCode y4 then
      some ((y1 - 48) * 1000 + (y2 - 48) * 100 + (y3 - 48) * 10 + (y4 - 48))
    else none
  | _ => none

/-- The literal `href="/matches/` that opens a match of
`href="(/matches/[^"]+)"`. -/
def HREF_PAT : List Nat := strCodes (r"href=") ++ [34] ++ strCodes (r"/matches/")

/-- `re.findall(r'href="(/matches/[^"]+)"', html)` : non-overlapping scan;
`skip` consumes the rest of a match. -/
def findMatchHrefsAux (skip : Nat) : List Nat → List (List Nat)
  | [] => []
  | c :: cs =>
    match skip with
    | k + 1 => findMatchHrefsAux k cs
    | 0 =>
      if HREF_PAT.isPrefixOf (c :: cs) then
        let afterQuote := ((c :: cs).drop 6)
        let grp := afterQuote.takeWhile (fun d => !(d == 34))
        if decide (grp.length ≥ 10) && ((afterQuote.drop grp.length).headD 0 == 34) then
          grp :: findMatchHrefsAux (6 + grp.length) cs
        else findMatchHrefsAux 0 cs
      else findMatchHrefsAux 0 cs

/-- All captured hrefs, in order of appearance. -/
def findMatchHrefs (html : List Nat) : List (List Nat) := findMatchHrefsAux 0 html

/-- `list(dict.fromkeys(xs))` : drop later duplicates, keep first-seen order. -/
def dedupFirstAux (seen : List (List Nat)) : List (List Nat) → List (List Nat)
  | [] => []
  | h :: t => if h ∈ seen then dedupFirstAux seen t else h :: dedupFirstAux (h :: seen) t

/-- `re.finditer(re.escape(pat), l)` match start positions (non-overlapping). -/
def occPositionsAux (pat : List Nat) (pos skip : Nat) : List Nat → List Nat
  | [] => []
  | c :: cs =>
    match skip with
    | k + 1 => occPositionsAux pat (pos + 1) k cs
    | 0 =>
      if pat.isPrefixOf (c :: cs) then pos :: occPositionsAux pat (pos + 1) (pat.length - 1) cs
      else occPositionsAux pat (pos + 1) 0 cs

/-- All occurrence positions of a literal pattern. -/
def occPositions (pat l : List Nat) : List Nat := occPositionsAux pat 0 0 l

/-- The `html[max(0, i-600) : min(n, i+len(href)+600)]` window of
`raw_scan_matches`. -/
def chunkAt (html : List Nat) (i len : Nat) : List Nat :=
  (html.drop (i - 600)).take (min html.length (i + len + 600) - (i - 600))
/-- `%b` month names (abbreviated, matched case-insensitively). -/
def MONTH_ABBR : List (List Nat) :=
  [ strCodes (r"Jan"), strCodes (r"Feb"), strCodes (r"Mar"), strCodes (r"Apr"),
    strCodes (r"May"), strCodes (r"Jun"), strCodes (r"Jul"), strCodes (r"Aug"),
    strCodes (r"Sep"), strCodes (r"Oct"), strCodes (r"Nov"), strCodes (r"Dec") ]

/-- `%B` month names (full, matched case-insensitively). -/
def MONTH_FULL : List (List Nat) :=
  [ strCodes (r"January"), strCodes (r"February"), strCodes (r"March"),
    strCodes (r"April"), strCodes (r"May"), strCodes (r"June"), strCodes (r"July"),
    strCodes (r"August"), strCodes (r"September"), strCodes (r"October"),
    strCodes (r"November"), strCodes (r"December") ]

/-- Match one month name (case-insensitive) at the head; returns the month
number and the rest of the input. -/
def matchMonthNameAux : List (List Nat) → Nat → List Nat → Option (Nat × List Nat)
  | [], _, _ => none
  | n :: ns, idx, l =>
    if ciPrefix n l then some (idx, l.drop n.length) else matchMonthNameAux ns (idx + 1) l

/-- Month-name lookup for a strptime month directive. -/
def matchMonthName (names : List (List Nat)) (l : List Nat) : Option (Nat × List Nat) :=
  matchMonthNameAux names 1 l

/-- The candidates of a greedy `\d{1,2}` strptime directive: (value, rest),
two digits first. -/
def digits12 (l : List Nat) : List (Nat × List Nat) :=
  match l with
  | a :: b :: rest =>
    if isDigitCode a && isDigitCode b then [((a - 48) * 10 + (b - 48), rest), (a - 48, b :: rest)]
    else if isDigitCode a then [(a - 48, b :: rest)]
    else []
  | [a] => if isDigitCode a then [(a - 48, [])] else []
  | [] => []

/-- `datetime.strptime(s, "%b %d")` / `"%B %d"` : month name, whitespace,
1-2 digit day, end of string; the day is validated against year 1900 (the
default year of a year-less strptime). -/
def strptimeMd (names : List (List Nat)) (l : List Nat) : Option (Nat × Nat) :=
  match matchMonthName names l with
  | none => none
  | some (m, rest) =>
    let ws := rest.takeWhile isWsCode
    if ws.length = 0 then none
    else
      firstSome (fun dr =>
          if dr.2 = [] then
            (if 1 ≤ dr.1 ∧ dr.1 ≤ daysInMonth 1900 m then some (m, dr.1) else none)
          else none)
        (digits12 (rest.drop ws.length))

/-- The `for fmt in ("%b %d", "%B %d")` loop of the bo3 parsers. -/
def strptimeMonthDay (l : List Nat) : Option (Nat × Nat) :=
  (strptimeMd MONTH_ABBR l).orElse (fun _ => strptimeMd MONTH_FULL l)

/-- `datetime.strptime(s, "%{b|B} %d %Y %H:%M")` of `navi_calendar.py`:
month, day, 4-digit year, `HH:MM`, full consumption, then `datetime`
validation of all fields. -/
def strptimeFull (names : List (List Nat)) (l : List Nat) : Option DT :=
  match matchMonthName names l with
  | none => none
  | some (m, rest) =>
    let ws1 := rest.takeWhile isWsCode
    if ws1.length = 0 then none
    else
      firstSome (fun dr =>
        let ws2 := dr.2.takeWhile isWsCode
        if ws2.length = 0 then none
        else
          match dr.2.drop ws2.length with
          | y1 :: y2 :: y3 :: y4 :: r4 =>
            if isDigitCode y1 && isDigitCode y2 && isDigitCode y3 && isDigitCode y4 then
              let y := (y1 - 48) * 1000 + (y2 - 48) * 100 + (y3 - 48) * 10 + (y4 - 48)
              let ws3 := r4.takeWhile isWsCode
              if ws3.length = 0 then none
              else
                firstSome (fun hr =>
                  match hr.2 with
                  | 58 :: r7 =>
                    firstSome (fun mr =>
                        if mr.2 = [] then mkDateTime y m dr.1 hr.1 mr.1 else none)
                      (digits12 r7)
                  | _ => none) (digits12 (r4.drop ws3.length))
            else none
          | _ => none) (digits12 (rest.drop ws1.length))

/-- The `for fmt in ("%b %d %Y %H:%M", "%B %d %Y %H:%M")` loop of
`parse_upcoming_matches`. -/
def strptimeFullMonthDay (l : List Nat) : Option DT :=
  (strptimeFull MONTH_ABBR l).orElse (fun _ => strptimeFull MONTH_FULL l)

/-- Decimal digits of a natural number (Python `str(n)` for `n : Nat`). -/
def natDigitsAux : Nat → Nat → List Nat
  | 0, _ => []
  | fuel + 1, n => if n < 10 then [48 + n] else natDigitsAux fuel (n / 10) ++ [48 + n % 10]

/-- Python `str(year)`. -/
def natDigits (n : Nat) : List Nat := natDigitsAux (n + 1) n

/-- Python `int(text)` : strip whitespace, unsigned digits (the only shape
the scripts feed it); `none` is the `ValueError` the scripts catch. -/
def pyIntOpt (l : List Nat) : Option Nat :=
  let t := pyStrip l
  if t ≠ [] ∧ t.all isDigitCode then
    some (t.foldl (fun acc c => acc * 10 + (c - 48)) 0)
  else none

/-- Split on one character (Python `text.split(":")` and friends). -/
def splitOnChar (c : Nat) : List Nat → List (List Nat)
  | [] => [[]]
  | d :: ds =>
    if d = c then [] :: splitOnChar c ds
    else
      match splitOnChar c ds with
      | p :: ps => (d :: p) :: ps
      | [] => [[d]]

/-- `hh, mm = time_text.split(":")` : exactly two pieces, else the
`ValueError` the scripts catch. -/
def splitColon2 (l : List Nat) : Option (List Nat × List Nat) :=
  match splitOnChar 58 l with
  | [a, b] => some (a, b)
  | _ => none

/-- `hh, mm = time_text.split(":"); datetime(y, mo, d, int(hh), int(mm))` —
the time-compose step, `none` for any of the exceptions the scripts catch. -/
def composeTime (y mo d : Nat) (timeText : List Nat) : Option DT :=
  match splitColon2 timeText with
  | none => none
  | some (hs, ms) =>
    match pyIntOpt hs, pyIntOpt ms with
    | some hh, some mi => mkDateTime y mo d hh mi
    | _, _ => none

/-- `infer_year` of `bo3_calendar.py` : a `dd-mm-yyyy` suffix of the link
wins; otherwise the current year, rolled one forward when the candidate
date has already passed. -/
def infer_year (href : List Nat) (month day : Nat) (today : Ymd) : Nat :=
  match hrefYearSuffix href with
  | some y => y
  | none => if ymdLe today ⟨today.year, month, day⟩ then today.year else today.year + 1

/-- The year rule of `parse_upcoming_matches` (navi variant): the link's
`dd-mm-yyyy` year if present and nonzero (`if not year_int` also rejects 0),
otherwise `datetime.now().year` — never rolled forward. -/
def naviYearFor (href : List Nat) (sysYear : Nat) : Nat :=
  match hrefYearSuffix href with
  | some y => if y = 0 then sysYear else y
  | none => sysYear
/-- The listing URL constant `BO3_URL`. -/
def BO3_URL_CODES : List Nat := strCodes (r"https://bo3.gg/teams/natus-vincere/matches")

/-- The site prefix glued before hrefs. -/
def BO3_SITE : List Nat := strCodes (r"https://bo3.gg")

/-- A table row of `parse_table_rows`, as the selector engine delivers it:
texts of the dedicated fields (`none` = element absent, `get_text` may
still be empty), the row's flattened text, and the matches-link href
(`[]` = absent, Python's falsy `""`). -/
structure BRow where
  teamNames : List (List Nat)
  rawText : List Nat
  bo : List Nat
  tournament : List Nat
  timeEl : Option (List Nat)
  dateEl : Option (List Nat)
  href : List Nat
  deriving DecidableEq, Repr

/-- One discovered match (the dict the scripts append); `startDT`/`endDT`
carry the local wall-clock fields that `start_dt_str`/`end_dt_str`
serialize.  The raw-scan path stores no `tournament`/`bo` keys; it is
embedded with `[]` there. -/
structure MatchRec where
  summary : List Nat
  startDT : DT
  endDT : DT
  link : List Nat
  tournament : List Nat
  bo : List Nat
  deriving DecidableEq, Repr

/-- Team extraction of `parse_table_rows` (lines 169-180): two dedicated
fields, else the free-text `A vs B` pattern (groups stripped), else the
tracked-team check with the `TBD` placeholder, else drop. -/
def bo3SelectTeams (row : BRow) : Option (List Nat × List Nat) :=
  if row.teamNames.length ≥ 2 then some (row.teamNames.getD 0 [], row.teamNames.getD 1 [])
  else
    match searchVs row.rawText with
    | some (a, b) => some (pyStrip a, pyStrip b)
    | none =>
      if containsNaviRaw row.rawText then some (strCodes (r"Natus Vincere"), strCodes (r"TBD"))
      else none

/-- `date_text` of `parse_table_rows` : the `.date` text minus the time
text (all occurrences, then strip), normalized; `none` when the element is
absent or the remainder is empty. -/
def bo3DateText (row : BRow) : Option (List Nat) :=
  match row.dateEl with
  | none => none
  | some raw0 =>
    let raw :=
      match row.timeEl with
      | some tt => if tt = [] then raw0 else pyStrip (removeAll tt raw0)
      | none => raw0
    if raw = [] then none else some (normalize_month_day raw)

/-- Python truthiness of an optional string. -/
def truthy : Option (List Nat) → Bool
  | none => false
  | some l => decide (l ≠ [])

/-- `start_local` of `parse_table_rows` : dedicated date/time fields, the
raw-text fallback when either is missing/empty, strptime + `infer_year` +
time compose + the UTC→Kyiv conversion, and last the detail-page fallback
(`fetchDetail` models `parse_detail_datetime`, an external fetch). -/
def bo3ComputeStart (fetchDetail : List Nat → Option DT) (scrapedUtc : Bool) (today : Ymd)
    (row : BRow) : Option DT :=
  let dt0 := bo3DateText row
  let tt0 := row.timeEl
  let p :=
    if truthy dt0 && truthy tt0 then (dt0, tt0)
    else
      match parse_hhmm_and_md_from_text row.rawText with
      | some (d, t) => (some d, some t)
      | none => (dt0, tt0)
  let startLocal :=
    if truthy p.1 && truthy p.2 then
      match strptimeMonthDay (p.1.getD []) with
      | some (mo, da) =>
        let y := infer_year row.href mo da today
        match composeTime y mo da (p.2.getD []) with
        | some naive => some (if scrapedUtc then utcToKyiv naive else naive)
        | none => none
      | none => none
    else none
  match startLocal with
  | some s => some s
  | none => if row.href ≠ [] then fetchDetail row.href else none

/-- Link built for a row: `"https://bo3.gg" + href` or the listing URL. -/
def bo3Link (row : BRow) : List Nat :=
  if row.href ≠ [] then BO3_SITE ++ row.href else BO3_URL_CODES

/-- Summary built by both scripts: teams, format in parentheses if any,
`" — tournament"` if any. -/
def buildSummary (t1 t2 bo tournament : List Nat) : List Nat :=
  t1 ++ strCodes (r" vs ") ++ t2 ++
    (if bo ≠ [] then strCodes (r" (") ++ bo ++ strCodes (r")") else []) ++
    (if tournament ≠ [] then strCodes (r" — ") ++ tournament else [])

/-- One row of `parse_table_rows` : `none` is the row's `continue`. -/
def bo3RowCandidate (fetchDetail : List Nat → Option DT) (scrapedUtc : Bool) (today : Ymd)
    (row : BRow) : Option MatchRec :=
  match bo3SelectTeams row with
  | none => none
  | some (t1, t2) =>
    match bo3ComputeStart fetchDetail scrapedUtc today row with
    | none => none
    | some startLocal =>
      some ⟨buildSummary t1 t2 row.bo row.tournament, startLocal, addMinutes startLocal 120,
        bo3Link row, row.tournament, row.bo⟩

/-- `parse_table_rows` of `bo3_calendar.py` over the selected rows. -/
def parse_table_rows (fetchDetail : List Nat → Option DT) (scrapedUtc : Bool) (today : Ymd)
    (rows : List BRow) : List MatchRec :=
  rows.filterMap (bo3RowCandidate fetchDetail scrapedUtc today)

/-- The per-window body of `raw_scan_matches` (lines 259-319): time+date
from the chunk, teams from the chunk (`vs` pattern, else the NaVi mention
with `TBD`), tournament keyword, strptime of the re-normalized date,
`infer_year`, time compose, conversion; the summary carries no format. -/
def rawChunkEmit (scrapedUtc : Bool) (today : Ymd) (href chunk : List Nat) : Option MatchRec :=
  match parse_hhmm_and_md_from_text chunk with
  | none => none
  | some (dateText, timeText) =>
    let teams :=
      match searchVs chunk with
      | some (a, b) => some (pyStrip a, pyStrip b)
      | none =>
        if searchNavi chunk then some (strCodes (r"Natus Vincere"), strCodes (r"TBD")) else none
    match teams with
    | none => none
    | some (t1, t2) =>
      let tour := match searchTour chunk with
        | some g => pyStrip g
        | none => []
      match strptimeMonthDay (normalize_month_day dateText) with
      | none => none
      | some (mo, da) =>
        let y := infer_year href mo da today
        match composeTime y mo da timeText with
        | none => none
        | some naive =>
          let startLocal := if scrapedUtc then utcToKyiv naive else naive
          some ⟨t1 ++ strCodes (r" vs ") ++ t2 ++
              (if tour ≠ [] then strCodes (r" — ") ++ tour else []),
            startLocal, addMinutes startLocal 120, BO3_SITE ++ href, [], []⟩

/-- `raw_scan_matches` of `bo3_calendar.py` : each distinct match href,
first ±600-character window around an occurrence that yields a candidate. -/
def raw_scan_matches (scrapedUtc : Bool) (today : Ymd) (html : List Nat) : List MatchRec :=
  (dedupFirstAux [] (findMatchHrefs html)).filterMap (fun href =>
    firstSome (fun i => rawChunkEmit scrapedUtc today href (chunkAt html i href.length))
      (occPositions href html))

/-- An upcoming-match row of `parse_upcoming_matches` (navi variant). -/
structure NRow where
  hasLink : Bool
  href : List Nat
  teamNames : List (List Nat)
  bo : List Nat
  tournament : List Nat
  timeEl : Option (List Nat)
  dateEl : Option (List Nat)
  deriving DecidableEq, Repr

/-- Team selection of `parse_upcoming_matches` (lines 40-46): the `TBD`
placeholder is substituted without any raw-text confirmation. -/
def naviSelectTeams (teams : List (List Nat)) : List Nat × List Nat :=
  if teams.length ≥ 2 then (teams.getD 0 [], teams.getD 1 [])
  else if teams.length = 1 then (teams.getD 0 [], strCodes (r"TBD"))
  else (strCodes (r"Natus Vincere"), strCodes (r"TBD"))

/-- One row of `parse_upcoming_matches` : link required, teams always
resolved, year from the href (0 is falsy) else the system year, date/time
required, strptime of `"{date} {year} {time}"`, local wall-clock, +2h. -/
def naviRowCandidate (sysYear : Nat) (row : NRow) : Option MatchRec :=
  if !row.hasLink then none
  else
    let ts := naviSelectTeams row.teamNames
    let dateText : Option (List Nat) :=
      match row.dateEl with
      | none => none
      | some raw0 =>
        some (match row.timeEl with
          | some tt => if tt = [] then raw0 else pyStrip (removeAll tt raw0)
          | none => raw0)
    let y := naviYearFor row.href sysYear
    if truthy dateText && truthy row.timeEl then
      match strptimeFullMonthDay
          ((dateText.getD []) ++ [32] ++ natDigits y ++ [32] ++ (row.timeEl.getD [])) with
      | none => none
      | some start =>
        some ⟨buildSummary ts.1 ts.2 row.bo row.tournament, start, addMinutes start 120,
          BO3_SITE ++ row.href, row.tournament, row.bo⟩
    else none

/-- `parse_upcoming_matches` of `navi_calendar.py` over the selected rows. -/
def parse_upcoming_matches (sysYear : Nat) (rows : List NRow) : List MatchRec :=
  rows.filterMap (naviRowCandidate sysYear)
/-- A calendar-store event as the reconcilers see it: summary and the
event's [start, end) instant window, in minutes on the target-zone
wall-clock timeline (every event the scripts create carries a `dateTime`
start, which the navi duplicate check requires). -/
structure GEvent where
  summary : List Nat
  startMin : Int
  endMin : Int
  deriving DecidableEq, Repr

/-- The store's `events().list(timeMin, timeMax, q=...)` (spec section 6
`listEvents` collaborator): an event is listed when its time span overlaps
the window (Google semantics: end after `timeMin`, start before `timeMax`)
and the free-text query occurs in its summary. -/
def listEvents (evs : List GEvent) (tmin tmax : Int) (q : List Nat) : List GEvent :=
  evs.filter (fun e => decide (tmin < e.endMin) && decide (e.startMin < tmax) &&
    containsSub q e.summary)

/-- Python `" vs ".join(xs)` / `" — ".join` separators. -/
def VS_SEP : List Nat := strCodes (r" vs ")

/-- The `" — "` separator (em-dash). -/
def EMDASH_SEP : List Nat := strCodes (r" — ")

/-- Python `text.split(sep)` for a nonempty separator, one-pass with a
skip counter over a matched separator; `cur` is the current piece
reversed. -/
def splitSepAux (sep cur : List Nat) (skip : Nat) : List Nat → List (List Nat)
  | [] => [cur.reverse]
  | c :: cs =>
    match skip with
    | k + 1 => splitSepAux sep cur k cs
    | 0 =>
      if sep.isPrefixOf (c :: cs) then
        cur.reverse :: splitSepAux sep [] (sep.length - 1) cs
      else splitSepAux sep (c :: cur) 0 cs

/-- Python `text.split(sep)` (the scripts only use nonempty separators). -/
def splitSepList (sep l : List Nat) : List (List Nat) :=
  if sep = [] then [l] else splitSepAux sep [] 0 l

/-- The bo3 duplicate key `" vs ".join(summary.split(" vs ")[:2])` — used
both as the `q=` query and as the `startswith` prefix. -/
def bo3DupKey (summary : List Nat) : List Nat :=
  joinSep VS_SEP ((splitSepList VS_SEP summary).take 2)

/-- The navi duplicate query `summary.split(" — ")[0]`. -/
def naviDupKey (summary : List Nat) : List Nat :=
  (splitSepList EMDASH_SEP summary).headD []

/-- The start instant of a created event, in wall-clock minutes (the
scripts serialize `start_dt_str` and the store hands it back). -/
def matchStartMin (m : MatchRec) : Int := (toMinutes m.startDT : Int)

/-- End instant of a created event, in wall-clock minutes. -/
def matchEndMin (m : MatchRec) : Int := (toMinutes m.endDT : Int)

/-- The event body `events().insert` receives for a match. -/
def toGEvent (m : MatchRec) : GEvent := ⟨m.summary, matchStartMin m, matchEndMin m⟩

namespace Bo3

/-- `has_duplicate_event` of `bo3_calendar.py` : list events in a ±3 hour
window around the start with the team-prefix query, and report a duplicate
when any listed summary starts with that prefix. -/
def has_duplicate_event (evs : List GEvent) (startMin : Int) (summary : List Nat) : Bool :=
  (listEvents evs (startMin - 180) (startMin + 180) (bo3DupKey summary)).any
    (fun ev => (bo3DupKey summary).isPrefixOf ev.summary)

end Bo3

namespace Navi

/-- `has_duplicate_event` of `navi_calendar.py` : window −1h..+3h, query by
the part before `" — "`, duplicate only on a byte-identical summary (with
a `dateTime` start, which the modelled store always has). -/
def has_duplicate_event (evs : List GEvent) (startMin : Int) (summary : List Nat) : Bool :=
  (listEvents evs (startMin - 60) (startMin + 180) (naviDupKey summary)).any
    (fun ev => decide (ev.summary = summary))

end Navi

/-- The reconciliation decisions of the spec (section 4.4). -/
inductive Decision
  | create
  | skip
  | patch
  deriving DecidableEq, Repr

/-- Per-candidate decision of `bo3_calendar.py`'s `create_events` : skip
when the strict flag is on and a duplicate is found, otherwise create.
(`STRICT_DUP_CHECK` defaults to false.) -/
def bo3Decide (strict : Bool) (evs : List GEvent) (m : MatchRec) : Decision :=
  if strict && Bo3.has_duplicate_event evs (matchStartMin m) m.summary then Decision.skip
  else Decision.create

/-- Per-candidate decision of `navi_calendar.py`'s `create_events`. -/
def naviDecide (evs : List GEvent) (m : MatchRec) : Decision :=
  if Navi.has_duplicate_event evs (matchStartMin m) m.summary then Decision.skip
  else Decision.create

/-- Outcome of one `create_events` pass: the store afterwards and the
counts of issued calls (`patched` stays 0: neither script has a patch
call). -/
structure RunResult where
  store : List GEvent
  created : Nat
  skipped : Nat
  patched : Nat
  deriving DecidableEq, Repr

namespace Bo3

/-- `create_events` of `bo3_calendar.py` as a fold over the candidates:
each one is either skipped (strict duplicate) or inserted into the store. -/
def create_events (strict : Bool) : List GEvent → Nat → Nat → List MatchRec → RunResult
  | evs, created, skipped, [] => ⟨evs, created, skipped, 0⟩
  | evs, created, skipped, m :: rest =>
    if bo3Decide strict evs m = Decision.skip then
      create_events strict evs created (skipped + 1) rest
    else create_events strict (evs ++ [toGEvent m]) created.succ skipped rest

/-- One pipeline pass against a store state. -/
def run (strict : Bool) (store : List GEvent) (ms : List MatchRec) : RunResult :=
  create_events strict store 0 0 ms

end Bo3

namespace Navi

/-- `create_events` of `navi_calendar.py` : the duplicate check always
runs; otherwise insert. -/
def create_events : List GEvent → Nat → Nat → List MatchRec → RunResult
  | evs, created, skipped, [] => ⟨evs, created, skipped, 0⟩
  | evs, created, skipped, m :: rest =>
    if naviDecide evs m = Decision.skip then create_events evs created (skipped + 1) rest
    else create_events (evs ++ [toGEvent m]) created.succ skipped rest

/-- One pipeline pass against a store state. -/
def run (store : List GEvent) (ms : List MatchRec) : RunResult :=
  create_events store 0 0 ms

end Navi

/-- The aggregator dedup of `main` (lines 388-393): a dict keyed by
`(summary, start_dt_str)` filled left to right — an existing key keeps its
position but its stored record is overwritten. -/
def upsert (k : List Nat × DT) (v : MatchRec) :
    List ((List Nat × DT) × MatchRec) → List ((List Nat × DT) × MatchRec)
  | [] => [(k, v)]
  | (k', v') :: rest => if k' = k then (k', v) :: rest else (k', v') :: upsert k v rest

/-- The dict build `for m in all_matches: uniq[(m["summary"], m["start_dt_str"])] = m`. -/
def dedupFold (acc : List ((List Nat × DT) × MatchRec)) :
    List MatchRec → List ((List Nat × DT) × MatchRec)
  | [] => acc
  | m :: rest => dedupFold (upsert (m.summary, m.startDT) m acc) rest

/-- `matches_final = list(uniq.values())`. -/
def dedupMatches (ms : List MatchRec) : List MatchRec :=
  (dedupFold [] ms).map Prod.snd

/-- `STRICT_DUP_CHECK` of `bo3_calendar.py` line 25: the duplicate check is
"временно отключаем" (temporarily disabled) — the shipped default is
`False`. -/
def STRICT_DUP_CHECK : Bool := false

/-- The per-event test `has_duplicate_event` of `bo3_calendar.py` applies
to one stored event: the event overlaps the ±3-hour window around the
candidate's start, the team-prefix query occurs in its summary (the `q=`
filter), and its summary starts with that prefix. -/
def evMatchesB (m : MatchRec) (ev : GEvent) : Bool :=
  (decide (matchStartMin m - 180 < ev.endMin) &&
      decide (ev.startMin < matchStartMin m + 180) &&
      containsSub (bo3DupKey m.summary) ev.summary) &&
    (bo3DupKey m.summary).isPrefixOf ev.summary

/-! ## DEFS-END (further embedded definitions are inserted above this line) -/

/-! ## Helper lemmas -/

theorem toMinutes_mk (y m d hh mi : Nat) :
    toMinutes ⟨y, m, d, hh, mi⟩ = 1440 * dayNumber y m d + 60 * hh + mi := rfl

theorem DTOk_mk (y m d hh mi : Nat) :
    DTOk ⟨y, m, d, hh, mi⟩ ↔
      (1 ≤ y ∧ 1 ≤ m ∧ m ≤ 12 ∧ 1 ≤ d ∧ d ≤ daysInMonth y m ∧ hh ≤ 23 ∧ mi ≤ 59) :=
  Iff.rfl

theorem daysInMonth_pos (y m : Nat) : 1 ≤ daysInMonth y m := by
  unfold daysInMonth; split_ifs <;> omega

theorem daysBeforeMonth_succ (y m : Nat) (h : 1 ≤ m) :
    daysBeforeMonth y (m + 1) = daysBeforeMonth y m + daysInMonth y m := by
  cases m with
  | zero => omega
  | succ k => rfl

theorem daysInYear_eq (y : Nat) : daysInYear y = if isLeap y then 366 else 365 := by
  unfold daysInYear
  rw [daysBeforeMonth_succ y 12 (by omega), daysBeforeMonth_succ y 11 (by omega),
    daysBeforeMonth_succ y 10 (by omega), daysBeforeMonth_succ y 9 (by omega),
    daysBeforeMonth_succ y 8 (by omega), daysBeforeMonth_succ y 7 (by omega),
    daysBeforeMonth_succ y 6 (by omega), daysBeforeMonth_succ y 5 (by omega),
    daysBeforeMonth_succ y 4 (by omega), daysBeforeMonth_succ y 3 (by omega),
    daysBeforeMonth_succ y 2 (by omega), daysBeforeMonth_succ y 1 (by omega)]
  have h1 : daysBeforeMonth y 1 = 0 := rfl
  rw [h1]
  unfold daysInMonth
  cases h : isLeap y <;> norm_num [h]

set_option maxHeartbeats 1600000 in
theorem daysUpTo_succ (y : Nat) (h : 1 ≤ y) :
    daysUpTo y = daysUpTo (y - 1) + daysInYear y := by
  cases y with
  | zero => omega
  | succ k =>
    rw [daysInYear_eq]
    unfold daysUpTo
    split_ifs with hq
    · have hp : (k + 1) % 4 = 0 ∧ ((k + 1) % 100 ≠ 0 ∨ (k + 1) % 400 = 0) := by
        simpa [isLeap] using hq
      omega
    · have hp : ¬((k + 1) % 4 = 0 ∧ ((k + 1) % 100 ≠ 0 ∨ (k + 1) % 400 = 0)) := by
        simpa [isLeap] using hq
      omega

theorem dayNumber_nextDay (t : DT) (hy : 1 ≤ t.year) (hm1 : 1 ≤ t.month)
    (hm2 : t.month ≤ 12) (hd1 : 1 ≤ t.day) (hd2 : t.day ≤ daysInMonth t.year t.month) :
    dayNumber (nextDay t).year (nextDay t).month (nextDay t).day =
      dayNumber t.year t.month t.day + 1 := by
  obtain ⟨y, m, d, hh, mi⟩ := t
  simp only at hy hm1 hm2 hd1 hd2
  simp only [nextDay, dayNumber]
  split_ifs with h1 h2
  · simp; omega
  · simp only
    rw [daysBeforeMonth_succ y m hm1]
    omega
  · simp only
    have hm12 : m = 12 := by omega
    subst hm12
    have hd31 : d = daysInMonth y 12 := by omega
    have e1 : y + 1 - 1 = y := by omega
    rw [e1, daysUpTo_succ y hy]
    have e2 : daysInYear y = daysBeforeMonth y 12 + daysInMonth y 12 := rfl
    have e3 : daysBeforeMonth (y + 1) 1 = 0 := rfl
    omega

theorem nextDay_ok (t : DT) (h : DTOk t) : DTOk (nextDay t) := by
  obtain ⟨y, m, d, hh, mi⟩ := t
  obtain ⟨h1, h2, h3, h4, h5, h6, h7⟩ := h
  simp only at h1 h2 h3 h4 h5 h6 h7
  have p2 := daysInMonth_pos y (m + 1)
  have p3 := daysInMonth_pos (y + 1) 1
  simp only [nextDay]
  split_ifs with ha hb <;> (rw [DTOk_mk]; omega)

theorem addDays_spec (k : Nat) (t : DT) (h : DTOk t) :
    DTOk (addDays k t) ∧
      dayNumber (addDays k t).year (addDays k t).month (addDays k t).day =
        dayNumber t.year t.month t.day + k ∧
      (addDays k t).hour = t.hour ∧ (addDays k t).minute = t.minute := by
  induction k generalizing t with
  | zero => exact ⟨h, by simp [addDays], rfl, rfl⟩
  | succ n ih =>
    obtain ⟨hok, hnum, hhr, hmin⟩ := ih (nextDay t) (nextDay_ok t h)
    obtain ⟨h1, h2, h3, h4, h5, h6, h7⟩ := h
    have hstep : addDays (n + 1) t = addDays n (nextDay t) := rfl
    have hnd : (nextDay t).hour = t.hour ∧ (nextDay t).minute = t.minute := by
      obtain ⟨y, m, d, hh', mi'⟩ := t
      simp only [nextDay]
      split_ifs <;> exact ⟨rfl, rfl⟩
    rw [hstep]
    refine ⟨hok, ?_, by rw [hhr, hnd.1], by rw [hmin, hnd.2]⟩
    rw [hnum, dayNumber_nextDay t h1 h2 h3 h4 h5]
    omega

theorem addMinutes_spec (t : DT) (delta : Nat) (h : DTOk t) :
    DTOk (addMinutes t delta) ∧
      toMinutes (addMinutes t delta) = toMinutes t + delta := by
  obtain ⟨hok1, hok2, hok3, hok4, hok5, hok6, hok7⟩ := h
  have hbase : DTOk ⟨t.year, t.month, t.day, 0, 0⟩ := (DTOk_mk _ _ _ _ _).mpr (by omega)
  obtain ⟨hok, hnum, hhr, hmin⟩ :=
    addDays_spec ((t.hour * 60 + t.minute + delta) / 1440) ⟨t.year, t.month, t.day, 0, 0⟩ hbase
  dsimp only at hnum
  have haddm : addMinutes t delta =
      ⟨(addDays ((t.hour * 60 + t.minute + delta) / 1440) ⟨t.year, t.month, t.day, 0, 0⟩).year,
       (addDays ((t.hour * 60 + t.minute + delta) / 1440) ⟨t.year, t.month, t.day, 0, 0⟩).month,
       (addDays ((t.hour * 60 + t.minute + delta) / 1440) ⟨t.year, t.month, t.day, 0, 0⟩).day,
       ((t.hour * 60 + t.minute + delta) % 1440) / 60,
       (t.hour * 60 + t.minute + delta) % 60⟩ := rfl
  obtain ⟨k1, k2, k3, k4, k5, k6, k7⟩ := hok
  constructor
  · rw [haddm, DTOk_mk]
    exact ⟨k1, k2, k3, k4, k5, by omega, by omega⟩
  · rw [haddm, toMinutes_mk, hnum]
    simp only [toMinutes]
    omega

theorem addMinutes_lt (t : DT) (delta : Nat) (h : DTOk t) (hd : 1 ≤ delta) :
    toMinutes t < toMinutes (addMinutes t delta) := by
  rw [(addMinutes_spec t delta h).2]
  omega

theorem utcToKyiv_spec (t : DT) (h : DTOk t) :
    DTOk (utcToKyiv t) ∧ toMinutes (utcToKyiv t) = toMinutes t + kyivOffset t :=
  addMinutes_spec t (kyivOffset t) h

theorem mkDateTime_ok (y m d hh mi : Nat) (t : DT) (h : mkDateTime y m d hh mi = some t) :
    DTOk t ∧ t = ⟨y, m, d, hh, mi⟩ := by
  unfold mkDateTime at h
  split_ifs at h with hc
  cases h
  exact ⟨⟨hc.1, hc.2.2.1, hc.2.2.2.1, hc.2.2.2.2.1, hc.2.2.2.2.2.1,
    hc.2.2.2.2.2.2.1, hc.2.2.2.2.2.2.2⟩, rfl⟩


/-! ### Character-level case lemmas -/

theorem lowerCode_lowerCode (c : Nat) : lowerCode (lowerCode c) = lowerCode c := by
  unfold lowerCode; split_ifs <;> omega

theorem lowerCode_upperCode (c : Nat) : lowerCode (upperCode c) = lowerCode c := by
  unfold lowerCode upperCode; split_ifs <;> omega

theorem upperCode_upperCode (c : Nat) : upperCode (upperCode c) = upperCode c := by
  unfold upperCode; split_ifs <;> omega

theorem upperCode_lowerCode (c : Nat) : upperCode (lowerCode c) = upperCode c := by
  unfold upperCode lowerCode; split_ifs <;> omega

theorem isAlphaCode_lowerCode (c : Nat) : isAlphaCode (lowerCode c) = isAlphaCode c := by
  simp only [isAlphaCode, lowerCode]; split_ifs <;> simp only [decide_eq_decide] <;> omega

theorem isAlphaCode_upperCode (c : Nat) : isAlphaCode (upperCode c) = isAlphaCode c := by
  simp only [isAlphaCode, upperCode]; split_ifs <;> simp only [decide_eq_decide] <;> omega

theorem isWsCode_lowerCode (c : Nat) : isWsCode (lowerCode c) = isWsCode c := by
  simp only [isWsCode, lowerCode]; split_ifs <;> simp only [decide_eq_decide] <;> omega

theorem isWsCode_upperCode (c : Nat) : isWsCode (upperCode c) = isWsCode c := by
  simp only [isWsCode, upperCode]; split_ifs <;> simp only [decide_eq_decide] <;> omega

theorem lowerCode_eq46 (c : Nat) : lowerCode c = 46 ↔ c = 46 := by
  unfold lowerCode; split_ifs <;> omega

theorem upperCode_eq46 (c : Nat) : upperCode c = 46 ↔ c = 46 := by
  unfold upperCode; split_ifs <;> omega

theorem titleChars_append (b : Bool) (l₁ l₂ : List Nat) :
    titleChars b (l₁ ++ l₂) = titleChars b l₁ ++ titleChars (endAlpha b l₁) l₂ := by
  induction l₁ generalizing b with
  | nil => simp [titleChars, endAlpha]
  | cons c cs ih => simp [titleChars, endAlpha, ih]

theorem titleChars_idem (b : Bool) (l : List Nat) :
    titleChars b (titleChars b l) = titleChars b l := by
  induction l generalizing b with
  | nil => simp [titleChars]
  | cons c cs ih =>
    by_cases ha : isAlphaCode c = true
    · cases b with
      | true =>
        simp [titleChars, ha, isAlphaCode_lowerCode, lowerCode_lowerCode, ih]
      | false =>
        simp [titleChars, ha, isAlphaCode_upperCode, lowerCode_upperCode, upperCode_upperCode, ih]
    · simp [titleChars, ha, ih]

theorem titleChars_forall {P : Nat → Prop}
    (hP : ∀ c, P c → P (lowerCode c) ∧ P (upperCode c)) (b : Bool) (l : List Nat)
    (hl : ∀ c ∈ l, P c) : ∀ c' ∈ titleChars b l, P c' := by
  induction l generalizing b with
  | nil => simp [titleChars]
  | cons c cs ih =>
    intro c' hc'
    simp only [titleChars, List.mem_cons] at hc'
    rcases hc' with h | h
    · subst h
      have hc := hl c (by simp)
      split_ifs with h1 h2
      · exact (hP c hc).1
      · exact (hP c hc).2
      · exact hc
    · exact ih _ (fun d hd => hl d (by simp [hd])) c' h

theorem length_titleChars (b : Bool) (l : List Nat) :
    (titleChars b l).length = l.length := by
  induction l generalizing b with
  | nil => rfl
  | cons c cs ih => simp [titleChars, ih]

theorem lowerStr_titleChars (b : Bool) (l : List Nat) :
    lowerStr (titleChars b l) = lowerStr l := by
  induction l generalizing b with
  | nil => rfl
  | cons c cs ih =>
    simp only [titleChars, lowerStr, List.map_cons]
    rw [List.cons_eq_cons]
    refine ⟨?_, ih _⟩
    split_ifs <;> simp [lowerCode_lowerCode, lowerCode_upperCode]

theorem pySplitAux_words (cur l : List Nat) (hcur : ∀ c ∈ cur, isWsCode c = false) :
    ∀ w ∈ pySplitAux cur l, WordOK w ∧ ∀ c ∈ w, c ∈ cur ∨ c ∈ l := by
  induction l generalizing cur with
  | nil =>
    intro w hw
    simp only [pySplitAux] at hw
    split at hw
    · simp at hw
    · rename_i hne
      simp only [List.mem_singleton] at hw
      subst hw
      refine ⟨⟨by simpa using hne, fun c hc => hcur c (by simpa using hc)⟩,
        fun c hc => Or.inl (by simpa using hc)⟩
  | cons c cs ih =>
    intro w hw
    simp only [pySplitAux] at hw
    split at hw
    · have step : ∀ u ∈ pySplitAux [] cs, WordOK u ∧ ∀ d ∈ u, d ∈ cur ∨ d ∈ c :: cs := by
        intro u hu
        rcases ih [] (by simp) u hu with ⟨h1, h2⟩
        refine ⟨h1, fun d hd => ?_⟩
        rcases h2 d hd with h | h
        · simp at h
        · exact Or.inr (List.mem_cons_of_mem _ h)
      split at hw
      · exact step w hw
      · rcases List.mem_cons.mp hw with h | h
        · subst h
          rename_i hne
          refine ⟨⟨by simpa using hne, fun d hd => hcur d (by simpa using hd)⟩,
            fun d hd => Or.inl (by simpa using hd)⟩
        · exact step w h
    · rename_i hcw
      have hcur' : ∀ d ∈ c :: cur, isWsCode d = false := by
        intro d hd
        rcases List.mem_cons.mp hd with h' | h'
        · subst h'; simpa using hcw
        · exact hcur d h'
      rcases ih (c :: cur) hcur' w hw with ⟨h1, h2⟩
      refine ⟨h1, fun d hd => ?_⟩
      rcases h2 d hd with h | h
      · rcases List.mem_cons.mp h with h' | h'
        · exact Or.inr (by simp [h'])
        · exact Or.inl h'
      · exact Or.inr (List.mem_cons_of_mem _ h)

theorem pySplitAux_word_prefix (cur w l : List Nat) (hw : ∀ c ∈ w, isWsCode c = false) :
    pySplitAux cur (w ++ l) = pySplitAux (w.reverse ++ cur) l := by
  induction w generalizing cur with
  | nil => simp
  | cons c cs ih =>
    have hc : isWsCode c = false := hw c (by simp)
    simp only [List.cons_append, pySplitAux, hc]
    rw [if_neg (by simp [hc])]
    simp only [List.append_eq]
    rw [ih (c :: cur) (fun d hd => hw d (by simp [hd]))]
    simp

theorem pySplit_joinSep (ws : List (List Nat)) (h : ∀ w ∈ ws, WordOK w) :
    pySplit (joinSep [32] ws) = ws := by
  induction ws with
  | nil => simp [pySplit, joinSep, pySplitAux]
  | cons w ws ih =>
    rcases h w (by simp) with ⟨hne, hwf⟩
    cases ws with
    | nil =>
      simp only [joinSep, pySplit]
      rw [show w = w ++ [] by simp, pySplitAux_word_prefix [] w [] hwf]
      simp [pySplitAux, hne]
    | cons w' ws' =>
      simp only [joinSep, pySplit]
      rw [List.append_assoc, pySplitAux_word_prefix [] w _ hwf]
      simp only [List.append_nil, List.singleton_append, pySplitAux]
      rw [if_pos (by simp [isWsCode]), if_neg (by simpa using hne)]
      have := ih (fun u hu => h u (by simp [hu]))
      simp only [pySplit] at this
      simp [this]

theorem collapseWsAux_nonws_head (b : Bool) (c : Nat) (l : List Nat)
    (hc : isWsCode c = false) : collapseWsAux b (c :: l) = c :: collapseWsAux false l := by
  simp [collapseWsAux, hc]

theorem collapseWsAux_word (b : Bool) (w l : List Nat) (hw : ∀ c ∈ w, isWsCode c = false)
    (hne : w ≠ []) : collapseWsAux b (w ++ l) = w ++ collapseWsAux false l := by
  induction w generalizing b with
  | nil => exact absurd rfl hne
  | cons c cs ih =>
    have hc : isWsCode c = false := hw c (by simp)
    rw [List.cons_append, collapseWsAux_nonws_head b c _ hc]
    cases cs with
    | nil => simp
    | cons d ds =>
      rw [ih false (fun e he => hw e (by simp [he])) (by simp)]
      simp

theorem joinSep_head (w : List Nat) (ws : List (List Nat)) (hne : w ≠ [])
    (hwf : ∀ c ∈ w, isWsCode c = false) :
    ∃ c rest, joinSep [32] (w :: ws) = c :: rest ∧ isWsCode c = false := by
  cases w with
  | nil => exact absurd rfl hne
  | cons d ds =>
    cases ws with
    | nil => exact ⟨d, ds, rfl, hwf d (by simp)⟩
    | cons u us =>
      exact ⟨d, ds ++ [32] ++ joinSep [32] (u :: us), by simp [joinSep], hwf d (by simp)⟩

theorem collapseWs_joinSep (ws : List (List Nat)) (h : ∀ w ∈ ws, WordOK w) :
    collapseWs (joinSep [32] ws) = joinSep [32] ws := by
  unfold collapseWs
  induction ws with
  | nil => simp [joinSep, collapseWsAux]
  | cons w ws ih =>
    rcases h w (by simp) with ⟨hne, hwf⟩
    cases ws with
    | nil =>
      show collapseWsAux false w = w
      rw [show w = w ++ [] from (List.append_nil w).symm,
        collapseWsAux_word false w [] hwf hne]
      simp [collapseWsAux]
    | cons w' ws' =>
      have hih := ih (fun u hu => h u (by simp [hu]))
      rcases h w' (by simp) with ⟨hne', hwf'⟩
      obtain ⟨c, rest, hj, hc⟩ := joinSep_head w' ws' hne' hwf'
      show collapseWsAux false (w ++ [32] ++ joinSep [32] (w' :: ws')) =
        w ++ [32] ++ joinSep [32] (w' :: ws')
      rw [List.append_assoc, collapseWsAux_word false w _ hwf hne, List.singleton_append]
      have h32 : collapseWsAux false (32 :: joinSep [32] (w' :: ws')) =
          32 :: collapseWsAux true (joinSep [32] (w' :: ws')) := by
        simp [collapseWsAux, isWsCode]
      rw [h32, hj, collapseWsAux_nonws_head true c rest hc,
        ← collapseWsAux_nonws_head false c rest hc, ← hj, hih]

theorem mem_joinSep (c : Nat) (ws : List (List Nat)) (h : c ∈ joinSep [32] ws) :
    c = 32 ∨ ∃ w ∈ ws, c ∈ w := by
  induction ws with
  | nil => simp [joinSep] at h
  | cons w ws ih =>
    cases ws with
    | nil => exact Or.inr ⟨w, by simpa [joinSep] using h⟩
    | cons w' ws' =>
      simp only [joinSep, List.append_assoc, List.singleton_append, List.mem_append,
        List.mem_cons] at h
      rcases h with h | h | h
      · exact Or.inr ⟨w, by simp, h⟩
      · exact Or.inl h
      · rcases ih h with h' | ⟨u, hu, hcu⟩
        · exact Or.inl h'
        · exact Or.inr ⟨u, by simp [hu], hcu⟩

theorem replaceDot_id (l : List Nat) (h : ∀ c ∈ l, c ≠ 46) : replaceDot l = l := by
  unfold replaceDot
  induction l with
  | nil => rfl
  | cons c cs ih =>
    simp only [List.map_cons]
    rw [if_neg (h c (by simp)), ih (fun d hd => h d (by simp [hd]))]

theorem replaceDot_no46 (l : List Nat) : ∀ c ∈ replaceDot l, c ≠ 46 := by
  intro c hc
  unfold replaceDot at hc
  rcases List.mem_map.mp hc with ⟨d, _, hd⟩
  by_cases h46 : d = 46 <;> simp [h46] at hd <;> omega

theorem collapseWsAux_mem (b : Bool) (l : List Nat) :
    ∀ c ∈ collapseWsAux b l, c = 32 ∨ c ∈ l := by
  induction l generalizing b with
  | nil => simp [collapseWsAux]
  | cons c cs ih =>
    intro d hd
    simp only [collapseWsAux] at hd
    split at hd
    · split at hd
      · rcases ih true d hd with h | h
        · exact Or.inl h
        · exact Or.inr (List.mem_cons_of_mem _ h)
      · rcases List.mem_cons.mp hd with h | h
        · exact Or.inl h
        · rcases ih true d h with h' | h'
          · exact Or.inl h'
          · exact Or.inr (List.mem_cons_of_mem _ h')
    · rcases List.mem_cons.mp hd with h | h
      · exact Or.inr (by simp [h])
      · rcases ih false d h with h' | h'
        · exact Or.inl h'
        · exact Or.inr (List.mem_cons_of_mem _ h')

theorem pyStrip_mem (l : List Nat) : ∀ c ∈ pyStrip l, c ∈ l := by
  intro c hc
  unfold pyStrip at hc
  have hsub : (((l.dropWhile isWsCode).reverse.dropWhile isWsCode)).Sublist
      (l.dropWhile isWsCode).reverse := List.dropWhile_sublist _
  have h1 := hsub.mem (by simpa using hc)
  exact (List.dropWhile_sublist _).mem (by simpa using h1)

theorem pyStrip_all_ws (l : List Nat) (h : ∀ c ∈ l, isWsCode c = true) : pyStrip l = [] := by
  unfold pyStrip
  have h1 : l.dropWhile isWsCode = [] :=
    List.dropWhile_eq_nil_iff.mpr (fun c hc => by simp [h c hc])
  rw [h1]
  simp [List.dropWhile]

theorem dropWhile_ws_join (w : List Nat) (ws : List (List Nat)) (hne : w ≠ [])
    (hwf : ∀ c ∈ w, isWsCode c = false) :
    List.dropWhile isWsCode (joinSep [32] (w :: ws)) = joinSep [32] (w :: ws) := by
  obtain ⟨c, rest, hj, hc⟩ := joinSep_head w ws hne hwf
  rw [hj, List.dropWhile_cons_of_neg (by simp [hc])]

theorem reverse_join_head (ws : List (List Nat)) (hws : ws ≠ [])
    (h : ∀ w ∈ ws, WordOK w) :
    ∃ c rest, (joinSep [32] ws).reverse = c :: rest ∧ isWsCode c = false := by
  induction ws with
  | nil => exact absurd rfl hws
  | cons w ws ih =>
    cases ws with
    | nil =>
      rcases h w (by simp) with ⟨hne, hwf⟩
      cases hw : w.reverse with
      | nil => simp_all
      | cons c rest =>
        refine ⟨c, rest, by simpa [joinSep] using hw, ?_⟩
        have : c ∈ w := by
          have : c ∈ w.reverse := by simp [hw]
          simpa using this
        exact hwf c this
    | cons w' ws' =>
      obtain ⟨c, rest, hj, hc⟩ := ih (by simp) (fun u hu => h u (by simp [hu]))
      refine ⟨c, rest ++ [32] ++ w.reverse, ?_, hc⟩
      show (joinSep [32] (w :: w' :: ws')).reverse = _
      have : joinSep [32] (w :: w' :: ws') = w ++ [32] ++ joinSep [32] (w' :: ws') := rfl
      rw [this]
      simp only [List.reverse_append, hj]
      simp

theorem pyStrip_joinSep (ws : List (List Nat)) (h : ∀ w ∈ ws, WordOK w) :
    pyStrip (joinSep [32] ws) = joinSep [32] ws := by
  cases ws with
  | nil => simp [joinSep, pyStrip, List.dropWhile]
  | cons w ws' =>
    rcases h w (by simp) with ⟨hne, hwf⟩
    unfold pyStrip
    rw [dropWhile_ws_join w ws' hne hwf]
    obtain ⟨c, rest, hj, hc⟩ := reverse_join_head (w :: ws') (by simp) h
    rw [hj, List.dropWhile_cons_of_neg (by simp [hc]), ← hj]
    simp

theorem titleChars_joinSep (ws : List (List Nat)) :
    pyTitle (joinSep [32] ws) = joinSep [32] (ws.map pyTitle) := by
  induction ws with
  | nil => rfl
  | cons w ws ih =>
    cases ws with
    | nil => simp [joinSep, pyTitle]
    | cons w' ws' =>
      show pyTitle (w ++ [32] ++ joinSep [32] (w' :: ws')) = _
      unfold pyTitle
      rw [List.append_assoc, titleChars_append, List.singleton_append]
      have h32 : ∀ b, titleChars b (32 :: joinSep [32] (w' :: ws')) =
          32 :: titleChars false (joinSep [32] (w' :: ws')) := by
        intro b
        have : isAlphaCode 32 = false := by decide
        simp [titleChars, this]
      rw [h32]
      have := ih
      unfold pyTitle at this
      rw [this]
      simp [joinSep, pyTitle]

theorem wordOK_title (w : List Nat) (h : WordOK w) : WordOK (pyTitle w) := by
  rcases h with ⟨hne, hwf⟩
  constructor
  · intro hempty
    have hlen := length_titleChars false w
    unfold pyTitle at hempty
    rw [hempty] at hlen
    simp at hlen
    exact hne (List.eq_nil_of_length_eq_zero hlen.symm)
  · exact titleChars_forall
      (fun c hc => by rw [← hc]; exact ⟨isWsCode_lowerCode c, isWsCode_upperCode c⟩)
      false w hwf

theorem no46_title (w : List Nat) (h : ∀ c ∈ w, c ≠ 46) : ∀ c ∈ pyTitle w, c ≠ 46 := by
  exact titleChars_forall
    (fun c hc => ⟨fun h' => hc ((lowerCode_eq46 c).mp h'), fun h' => hc ((upperCode_eq46 c).mp h')⟩)
    false w h

theorem tableLookup_mem (k v : List Nat) (t : List (List Nat × List Nat))
    (h : tableLookup k t = some v) : (k, v) ∈ t := by
  induction t with
  | nil => simp [tableLookup] at h
  | cons p rest ih =>
    simp only [tableLookup] at h
    split at h
    · rename_i heq
      cases p with
      | mk k' v' =>
        simp only [Option.some.injEq] at h
        simp_all
    · exact List.mem_cons_of_mem _ (ih h)

theorem months_val_props : ∀ p ∈ MONTHS_EN,
    p.2 ≠ [] ∧ (∀ c ∈ p.2, isWsCode c = false ∧ c ≠ 46) ∧
      tableLookup (lowerStr p.2) MONTHS_EN = some p.2 := by decide

theorem tableLookup_title (w : List Nat) (t : List (List Nat × List Nat)) :
    tableLookup (lowerStr (pyTitle w)) t = tableLookup (lowerStr w) t := by
  rw [pyTitle, lowerStr_titleChars]

theorem map_pyTitle_idem (ws : List (List Nat)) :
    ws.map (pyTitle ∘ pyTitle) = ws.map pyTitle := by
  apply List.map_congr_left
  intro w _
  exact titleChars_idem false w

theorem normalize_nil : normalize_month_day [] = [] := rfl

theorem normalize_title_join (p0 : List Nat) (rest : List (List Nat))
    (h : ∀ w ∈ p0 :: rest, WordOK w ∧ ∀ c ∈ w, c ≠ 46)
    (hs : tableLookup (lowerStr p0) MONTHS_EN = some p0 ∨
          tableLookup (lowerStr p0) MONTHS_EN = none) :
    normalize_month_day (pyTitle (joinSep [32] (p0 :: rest))) =
      pyTitle (joinSep [32] (p0 :: rest)) := by
  have hcanonW : ∀ w ∈ (p0 :: rest).map pyTitle, WordOK w := by
    intro w hw
    rcases List.mem_map.mp hw with ⟨u, hu, huw⟩
    exact huw ▸ wordOK_title u (h u hu).1
  have hdist : pyTitle (joinSep [32] (p0 :: rest)) =
      joinSep [32] ((p0 :: rest).map pyTitle) := titleChars_joinSep _
  have hT46 : ∀ c ∈ pyTitle (joinSep [32] (p0 :: rest)), c ≠ 46 := by
    intro c hc
    rw [hdist] at hc
    rcases mem_joinSep c _ hc with h32 | ⟨w, hw, hcw⟩
    · omega
    · rcases List.mem_map.mp hw with ⟨u, hu, huw⟩
      exact no46_title u (fun d hd => (h u hu).2 d hd) c (huw ▸ hcw)
  have hstrip : pyStrip (pyTitle (joinSep [32] (p0 :: rest))) =
      pyTitle (joinSep [32] (p0 :: rest)) := by
    rw [hdist]
    exact pyStrip_joinSep _ hcanonW
  have hrepl : replaceDot (pyTitle (joinSep [32] (p0 :: rest))) =
      pyTitle (joinSep [32] (p0 :: rest)) := replaceDot_id _ hT46
  have hcoll : collapseWs (pyTitle (joinSep [32] (p0 :: rest))) =
      pyTitle (joinSep [32] (p0 :: rest)) := by
    rw [hdist]
    exact collapseWs_joinSep _ hcanonW
  have hsplit : pySplit (pyTitle (joinSep [32] (p0 :: rest))) =
      pyTitle p0 :: rest.map pyTitle := by
    rw [hdist]
    have := pySplit_joinSep ((p0 :: rest).map pyTitle) hcanonW
    simpa using this
  rcases hs with hsome | hnone
  · have hlk2 : tableLookup (lowerStr (pyTitle p0)) MONTHS_EN = some p0 := by
      rw [tableLookup_title]; exact hsome
    simp only [normalize_month_day, hstrip, hrepl, hcoll, hsplit, hlk2]
    simp only [titleChars_joinSep, List.map_cons, List.map_map, map_pyTitle_idem]
  · have hlk2 : tableLookup (lowerStr (pyTitle p0)) MONTHS_EN = none := by
      rw [tableLookup_title]; exact hnone
    simp only [normalize_month_day, hstrip, hrepl, hcoll, hsplit, hlk2]
    simp only [titleChars_joinSep, List.map_cons, List.map_map, map_pyTitle_idem]
    rw [show pyTitle (pyTitle p0) = pyTitle p0 from titleChars_idem false p0]

theorem normalize_idem_aux (s : List Nat) :
    normalize_month_day (normalize_month_day s) = normalize_month_day s := by
  have hwords : ∀ w ∈ pySplit (collapseWs (replaceDot (pyStrip s))),
      WordOK w ∧ ∀ c ∈ w, c ≠ 46 := by
    intro w hw
    rcases pySplitAux_words [] _ (by simp) w hw with ⟨hok, hmem⟩
    refine ⟨hok, fun c hc => ?_⟩
    rcases hmem c hc with h | h
    · simp at h
    · rcases collapseWsAux_mem false _ c h with h32 | hmem2
      · omega
      · exact replaceDot_no46 _ c hmem2
  cases hps : pySplit (collapseWs (replaceDot (pyStrip s))) with
  | nil =>
    have : normalize_month_day s = [] := by
      simp only [normalize_month_day, hps]
    rw [this, normalize_nil]
  | cons p0 rest =>
    rw [hps] at hwords
    cases hlk : tableLookup (lowerStr p0) MONTHS_EN with
    | some v =>
      have hv := months_val_props _ (tableLookup_mem _ _ _ hlk)
      have hred : normalize_month_day s = pyTitle (joinSep [32] (v :: rest)) := by
        simp only [normalize_month_day, hps, hlk]
      rw [hred]
      apply normalize_title_join v rest
      · intro w hw
        rcases List.mem_cons.mp hw with h | h
        · subst h
          exact ⟨⟨hv.1, fun c hc => (hv.2.1 c hc).1⟩, fun c hc => (hv.2.1 c hc).2⟩
        · exact hwords w (List.mem_cons_of_mem _ h)
      · exact Or.inl hv.2.2
    | none =>
      have hred : normalize_month_day s = pyTitle (joinSep [32] (p0 :: rest)) := by
        simp only [normalize_month_day, hps, hlk]
      rw [hred]
      exact normalize_title_join p0 rest hwords (Or.inr hlk)

theorem normalize_ws_nil (s : List Nat) (h : ∀ c ∈ s, isWsCode c = true) :
    normalize_month_day s = [] := by
  simp only [normalize_month_day, pyStrip_all_ws s h]
  rfl

set_option maxRecDepth 100000

/-! ## CLAIMS (one theorem per claim, with witnesses and counterexamples) -/

/-- C10: the month/day label normalizer is idempotent — applying
`normalize_month_day` twice equals applying it once, for every input — and it
never fails: the function is total, and empty or whitespace-only input yields
the empty string. -/
theorem claim_C10_normalize_idem (s : List Nat) :
    normalize_month_day (normalize_month_day s) = normalize_month_day s ∧
    ((∀ c ∈ s, isWsCode c = true) → normalize_month_day s = []) :=
  ⟨normalize_idem_aux s, normalize_ws_nil s⟩

/-- Witness for C10 at concrete inputs: a month/day label, and a
whitespace-only string (space and tab). -/
theorem claim_C10_normalize_idem_witness :
    normalize_month_day (normalize_month_day (strCodes (r"sep 18"))) =
      normalize_month_day (strCodes (r"sep 18")) ∧
    normalize_month_day [32, 9] = [] :=
  ⟨(claim_C10_normalize_idem (strCodes (r"sep 18"))).1,
   (claim_C10_normalize_idem [32, 9]).2 (by decide)⟩


/-- The row of the spec's concrete scenario (section 8): teams Alpha/Beta,
format Bo3, tournament Winter Cup, date label "Sep 18", time label
"18:30", no per-match link. -/
def c5Row : BRow :=
  ⟨[strCodes (r"Alpha"), strCodes (r"Beta")],
   strCodes (r"Alpha Beta Bo3 Winter Cup Sep 18 18:30"),
   strCodes (r"Bo3"), strCodes (r"Winter Cup"),
   some (strCodes (r"18:30")), some (strCodes (r"Sep 18")), []⟩

/-- The candidate that row yields. -/
def c5Cand : MatchRec :=
  ⟨strCodes (r"Alpha vs Beta (Bo3) — Winter Cup"),
   ⟨2025, 9, 18, 21, 30⟩, ⟨2025, 9, 18, 23, 30⟩,
   BO3_URL_CODES, strCodes (r"Winter Cup"), strCodes (r"Bo3")⟩

/-- C5: concrete end-to-end extraction — the row with teams "Alpha" and
"Beta", format label "Bo3", tournament "Winter Cup", date label "Sep 18",
time label "18:30", UTC-flag true, target zone Europe/Kyiv and
now = 2025-09-01 yields exactly one candidate whose summary is
"Alpha vs Beta (Bo3) — Winter Cup", whose start is the Kyiv wall clock
2025-09-18 21:30 (18:30 UTC shifted by the summer offset, +180 minutes =
+03:00), and whose end is the start plus the fixed two-hour duration. -/
theorem claim_C5_concrete_extraction :
    parse_table_rows (fun _ => none) true ⟨2025, 9, 1⟩ [c5Row] = [c5Cand] ∧
    c5Cand.summary = strCodes (r"Alpha vs Beta (Bo3) — Winter Cup") ∧
    kyivOffset ⟨2025, 9, 18, 18, 30⟩ = 180 ∧
    c5Cand.startDT = utcToKyiv ⟨2025, 9, 18, 18, 30⟩ ∧
    c5Cand.endDT = addMinutes c5Cand.startDT 120 := by
  refine ⟨by decide, by decide, by decide, by decide, by decide⟩

/-- C8: malformed-row resilience — a document holding one well-formed row
(one that yields a candidate `c`) and one row with no date element, no
time element, no time/date tokens in its flattened text and no detail
link yields exactly `[c]`, in either row order: the malformed row is
silently dropped (every failure path of the embedding is a `none`, never
an exception). -/
theorem claim_C8_malformed_row (fetchDetail : List Nat → Option DT) (scrapedUtc : Bool)
    (today : Ymd) (rGood rBad : BRow) (c : MatchRec)
    (hgood : bo3RowCandidate fetchDetail scrapedUtc today rGood = some c)
    (ht : rBad.timeEl = none) (hd : rBad.dateEl = none)
    (hraw : parse_hhmm_and_md_from_text rBad.rawText = none)
    (hhref : rBad.href = []) :
    parse_table_rows fetchDetail scrapedUtc today [rGood, rBad] = [c] ∧
    parse_table_rows fetchDetail scrapedUtc today [rBad, rGood] = [c] := by
  have hstart : bo3ComputeStart fetchDetail scrapedUtc today rBad = none := by
    unfold bo3ComputeStart
    simp only [bo3DateText, hd, ht, hraw, hhref, truthy]
    simp
  have hbad : bo3RowCandidate fetchDetail scrapedUtc today rBad = none := by
    unfold bo3RowCandidate
    cases hsel : bo3SelectTeams rBad with
    | none => rfl
    | some ts => rw [hstart]
  constructor
  · simp [parse_table_rows, hgood, hbad]
  · simp [parse_table_rows, hgood, hbad]

/-- The malformed row used as the C8 witness input. -/
def c8BadRow : BRow :=
  ⟨[strCodes (r"Alpha")], strCodes (r"no schedule yet"), [], [], none, none, []⟩

/-- Witness for C8 at concrete rows: the C5 row as the well-formed row, a
row with no date, no time and no link as the malformed one. -/
theorem claim_C8_malformed_row_witness :
    parse_table_rows (fun _ => none) true ⟨2025, 9, 1⟩ [c5Row, c8BadRow] = [c5Cand] ∧
    parse_table_rows (fun _ => none) true ⟨2025, 9, 1⟩ [c8BadRow, c5Row] = [c5Cand] :=
  claim_C8_malformed_row (fun _ => none) true ⟨2025, 9, 1⟩ c5Row c8BadRow c5Cand
    (by decide) (by decide) (by decide) (by decide) (by decide)


/-- C6 counterexample: with no year in the link and "now" = 2025-09-01,
the navi variant resolves a month/day of March 5 to the current year 2025
even though 2025-03-05 is strictly before today — the claim requires a
roll-forward to 2026.  (The navi year rule never reads the month/day at
all.) -/
theorem claim_C6_counterexample :
    naviYearFor [] 2025 = 2025 ∧ ymdLt ⟨2025, 3, 5⟩ ⟨2025, 9, 1⟩ = true ∧
      (2025 : Nat) ≠ 2026 := by
  decide

/-- C6 (amended): the year rule of bo3's `infer_year` is exactly as
claimed — link `dd-mm-yyyy` suffix year when present; otherwise the
smallest year whose month/day is not before today (today's own month/day
keeps the current year, a passed date rolls one year forward).  The navi
variant instead takes the link year when present and nonzero, and
otherwise the current system year, with no roll-forward. -/
theorem claim_C6_infer_year (href : List Nat) (month day : Nat) (today : Ymd) (sysYear : Nat) :
    (∀ y, hrefYearSuffix href = some y → infer_year href month day today = y) ∧
    (hrefYearSuffix href = none →
      ymdLe today ⟨infer_year href month day today, month, day⟩ = true ∧
      ∀ y' < infer_year href month day today, ymdLt ⟨y', month, day⟩ today = true) ∧
    (∀ y, hrefYearSuffix href = some y → y ≠ 0 → naviYearFor href sysYear = y) ∧
    (hrefYearSuffix href = none → naviYearFor href sysYear = sysYear) := by
  refine ⟨?_, ?_, ?_, ?_⟩
  · intro y hy
    unfold infer_year
    rw [hy]
  · intro hn
    have hred : infer_year href month day today =
        if ymdLe today ⟨today.year, month, day⟩ = true then today.year else today.year + 1 := by
      simp only [infer_year, hn]
    rw [hred]
    by_cases hle : ymdLe today ⟨today.year, month, day⟩ = true
    · rw [if_pos hle]
      refine ⟨hle, fun y' hy' => ?_⟩
      simp only [ymdLt, ymdLe, Bool.and_eq_true, decide_eq_true_eq, Bool.not_eq_true',
        beq_eq_false_iff_ne, ne_eq]
      refine ⟨Or.inl (by omega), fun hc => ?_⟩
      have h1 := congrArg Ymd.year hc
      simp only at h1
      omega
    · rw [if_neg hle]
      simp only [ymdLe, decide_eq_true_eq] at hle
      push_neg at hle
      obtain ⟨hm, hd2⟩ := hle.2 trivial
      constructor
      · simp only [ymdLe, decide_eq_true_eq]
        exact Or.inl (by omega)
      · intro y' hy'
        simp only [ymdLt, ymdLe, Bool.and_eq_true, decide_eq_true_eq, Bool.not_eq_true',
          beq_eq_false_iff_ne, ne_eq]
        by_cases hyy : y' = today.year
        · subst hyy
          by_cases hme : today.month = month
          · have hdd := hd2 hme
            refine ⟨Or.inr ⟨rfl, Or.inr ⟨by omega, by omega⟩⟩, fun hc => ?_⟩
            have h2 := congrArg Ymd.day hc
            simp only at h2
            omega
          · refine ⟨Or.inr ⟨rfl, Or.inl (by omega)⟩, fun hc => ?_⟩
            have h1 := congrArg Ymd.month hc
            simp only at h1
            omega
        · refine ⟨Or.inl (by omega), fun hc => ?_⟩
          have h1 := congrArg Ymd.year hc
          simp only at h1
          omega
  · intro y hy hy0
    simp only [naviYearFor, hy]
    rw [if_neg hy0]
  · intro hn
    simp only [naviYearFor, hn]


/-- Witness for C6 at concrete inputs: href-year case, inference case
(soonest future occurrence of Mar 5 seen from 2025-09-01), and the navi
fallback to the system year. -/
theorem claim_C6_infer_year_witness :
    infer_year (strCodes (r"/matches/x-18-09-2025")) 9 18 ⟨2026, 1, 1⟩ = 2025 ∧
    ymdLe ⟨2025, 9, 1⟩ ⟨infer_year [] 3 5 ⟨2025, 9, 1⟩, 3, 5⟩ = true ∧
    naviYearFor [] 2025 = 2025 :=
  ⟨(claim_C6_infer_year (strCodes (r"/matches/x-18-09-2025")) 9 18 ⟨2026, 1, 1⟩ 0).1 2025
     (by decide),
   ((claim_C6_infer_year [] 3 5 ⟨2025, 9, 1⟩ 0).2.1 (by decide)).1,
   (claim_C6_infer_year [] 3 5 ⟨2025, 9, 1⟩ 2025).2.2.2 (by decide)⟩


theorem splitSepAux_skip (sep cur : List Nat) (k : Nat) (l : List Nat) :
    splitSepAux sep cur k l = splitSepAux sep cur 0 (l.drop k) := by
  induction k generalizing l with
  | zero => simp
  | succ n ih =>
    cases l with
    | nil => simp [splitSepAux]
    | cons c cs => simpa [splitSepAux] using ih cs

theorem splitSepAux_ne_nil (sep cur : List Nat) (k : Nat) (l : List Nat) :
    splitSepAux sep cur k l ≠ [] := by
  induction l generalizing cur k with
  | nil => simp [splitSepAux]
  | cons c cs ih =>
    cases k with
    | succ n => simpa [splitSepAux] using ih cur n
    | zero =>
      simp only [splitSepAux]
      split_ifs
      · simp
      · exact ih (c :: cur) 0

theorem joinSep_cons (sep w : List Nat) (ws : List (List Nat)) (h : ws ≠ []) :
    joinSep sep (w :: ws) = w ++ sep ++ joinSep sep ws := by
  cases ws with
  | nil => exact absurd rfl h
  | cons u us => rfl

theorem splitSepAux_join (sep : List Nat) (hsep : sep ≠ []) (n : Nat) :
    ∀ l : List Nat, l.length ≤ n → ∀ cur,
      joinSep sep (splitSepAux sep cur 0 l) = cur.reverse ++ l := by
  induction n with
  | zero =>
    intro l hl cur
    have : l = [] := List.eq_nil_of_length_eq_zero (by omega)
    subst this
    simp [splitSepAux, joinSep]
  | succ n ih =>
    intro l hl cur
    cases l with
    | nil => simp [splitSepAux, joinSep]
    | cons c cs =>
      simp only [splitSepAux]
      split_ifs with hpre
      · obtain ⟨t, ht⟩ : ∃ t, sep ++ t = c :: cs := List.isPrefixOf_iff_prefix.mp hpre
        rw [joinSep_cons sep _ _ (splitSepAux_ne_nil sep [] _ cs),
          splitSepAux_skip sep [] (sep.length - 1) cs]
        have hdrop : cs.drop (sep.length - 1) = (c :: cs).drop sep.length := by
          cases sep with
          | nil => exact absurd rfl hsep
          | cons s ss => simp
        rw [hdrop, ← ht]
        have hlen : t.length ≤ n := by
          have := congrArg List.length ht
          simp at this
          have hs1 : 1 ≤ sep.length := by
            cases sep with
            | nil => exact absurd rfl hsep
            | cons s ss => simp
          simp at hl
          omega
        have hdt : (sep ++ t).drop sep.length = t := by simp
        rw [hdt, ih t hlen []]
        simp [← ht]
      · rw [ih cs (by simpa using hl) (c :: cur)]
        simp

theorem splitSep_join (sep l : List Nat) (hsep : sep ≠ []) :
    joinSep sep (splitSepList sep l) = l := by
  unfold splitSepList
  rw [if_neg hsep]
  simpa using splitSepAux_join sep hsep l.length l (le_refl _) []

theorem joinSep_take_prefix (sep : List Nat) (n : Nat) (ps : List (List Nat)) :
    joinSep sep (ps.take n) <+: joinSep sep ps := by
  induction n generalizing ps with
  | zero => simp [joinSep]
  | succ m ih =>
    cases ps with
    | nil => simp
    | cons w ws =>
      cases ws with
      | nil => simp
      | cons u us =>
        rw [List.take_succ_cons, joinSep_cons sep w (u :: us) (by simp)]
        cases htk : (u :: us).take m with
        | nil =>
          rw [joinSep]
          exact ⟨sep ++ joinSep sep (u :: us), by simp⟩
        | cons a as =>
          rw [joinSep_cons sep w (a :: as) (by simp)]
          have := ih (u :: us)
          rw [htk] at this
          obtain ⟨t, ht⟩ := this
          exact ⟨t, by simp [← ht]⟩

theorem bo3DupKey_prefix (s : List Nat) : bo3DupKey s <+: s := by
  unfold bo3DupKey
  have h := joinSep_take_prefix VS_SEP 2 (splitSepList VS_SEP s)
  rw [splitSep_join VS_SEP s (by decide)] at h
  exact h

/-- C4 counterexample: for the summary shape the claim names —
"Alpha vs Beta (Bo3) — Winter Cup" — the bo3 lookup key is the whole
summary, format label and tournament suffix included, not the two-team
prefix "Alpha vs Beta". -/
theorem claim_C4_counterexample :
    bo3DupKey (strCodes (r"Alpha vs Beta (Bo3) — Winter Cup")) =
      strCodes (r"Alpha vs Beta (Bo3) — Winter Cup") ∧
    bo3DupKey (strCodes (r"Alpha vs Beta (Bo3) — Winter Cup")) ≠
      strCodes (r"Alpha vs Beta") := by
  decide

/-- C4 (amended): the bo3 key is `" vs ".join` of the first two
`" vs "`-separated segments of the summary — the whole summary (format and
tournament suffix kept) whenever the summary holds at most one `" vs "` —
and is always a prefix of the summary; the navi key drops only the
`" — tournament"` suffix, keeping the format label, as on the decorated
shape "Alpha vs Beta (Bo3) — Winter Cup". -/
theorem claim_C4_match_key (s : List Nat) :
    ((splitSepList VS_SEP s).length ≤ 2 → bo3DupKey s = s) ∧
    bo3DupKey s <+: s ∧
    naviDupKey (strCodes (r"Alpha vs Beta (Bo3) — Winter Cup")) =
      strCodes (r"Alpha vs Beta (Bo3)") := by
  refine ⟨?_, bo3DupKey_prefix s, by decide⟩
  intro hlen
  unfold bo3DupKey
  rw [List.take_of_length_le hlen]
  exact splitSep_join VS_SEP s (by decide)

/-- Witness for C4: a plain two-team summary is its own key. -/
theorem claim_C4_match_key_witness :
    bo3DupKey (strCodes (r"Alpha vs Beta")) = strCodes (r"Alpha vs Beta") ∧
    bo3DupKey (strCodes (r"Alpha vs Beta")) <+: strCodes (r"Alpha vs Beta") ∧
    naviDupKey (strCodes (r"Alpha vs Beta (Bo3) — Winter Cup")) =
      strCodes (r"Alpha vs Beta (Bo3)") :=
  ⟨(claim_C4_match_key (strCodes (r"Alpha vs Beta"))).1 (by decide),
   (claim_C4_match_key (strCodes (r"Alpha vs Beta"))).2.1,
   (claim_C4_match_key (strCodes (r"Alpha vs Beta"))).2.2⟩


/-- The candidate of the reschedule scenario (the C5 candidate reused as a
concrete match record). -/
def c2Cand : MatchRec := c5Cand

/-- An already-created event for the same match, 90 minutes earlier, with
the byte-identical summary. -/
def c2Event : GEvent :=
  ⟨strCodes (r"Alpha vs Beta (Bo3) — Winter Cup"),
   matchStartMin c2Cand - 90, matchStartMin c2Cand + 30⟩

/-- C2 counterexample: for a candidate whose team key and byte-identical
summary match an existing event shifted by 90 minutes, neither reconciler
issues a patch — bo3 with the strict flag skips, navi skips, and bo3 with
the shipped default (strict off) creates a duplicate. -/
theorem claim_C2_counterexample :
    bo3Decide true [c2Event] c2Cand = Decision.skip ∧
    naviDecide [c2Event] c2Cand = Decision.skip ∧
    bo3Decide true [c2Event] c2Cand ≠ Decision.patch ∧
    naviDecide [c2Event] c2Cand ≠ Decision.patch ∧
    bo3Decide false [c2Event] c2Cand = Decision.create := by
  refine ⟨by decide, by decide, by decide, by decide, by decide⟩

/-- C2 (amended): the reconcilers' full decision table.  Every decision is
create or skip and never patch.  bo3 skips exactly when the strict flag is
on and some event overlapping the ±3-hour window around the candidate's
start carries the candidate's `" vs "`-key both as a substring (the free-
text query) and as a summary prefix; navi skips exactly when some event
overlapping the [−1h, +3h) window whose summary contains the part before
`" — "` has the byte-identical summary.  In every other case the decision
is create. -/
theorem claim_C2_decisions (strict : Bool) (evs : List GEvent) (m : MatchRec) :
    (bo3Decide strict evs m = Decision.create ∨ bo3Decide strict evs m = Decision.skip) ∧
    bo3Decide strict evs m ≠ Decision.patch ∧
    (naviDecide evs m = Decision.create ∨ naviDecide evs m = Decision.skip) ∧
    naviDecide evs m ≠ Decision.patch ∧
    (bo3Decide strict evs m = Decision.skip ↔
      strict = true ∧ ∃ ev ∈ evs,
        matchStartMin m - 180 < ev.endMin ∧ ev.startMin < matchStartMin m + 180 ∧
        containsSub (bo3DupKey m.summary) ev.summary = true ∧
        (bo3DupKey m.summary).isPrefixOf ev.summary = true) ∧
    (naviDecide evs m = Decision.skip ↔
      ∃ ev ∈ evs,
        matchStartMin m - 60 < ev.endMin ∧ ev.startMin < matchStartMin m + 180 ∧
        containsSub (naviDupKey m.summary) ev.summary = true ∧
        ev.summary = m.summary) := by
  have hb : ∀ s, (bo3Decide s evs m = Decision.create ∨ bo3Decide s evs m = Decision.skip) ∧
      bo3Decide s evs m ≠ Decision.patch := by
    intro s
    unfold bo3Decide
    split_ifs <;> simp
  have hn : (naviDecide evs m = Decision.create ∨ naviDecide evs m = Decision.skip) ∧
      naviDecide evs m ≠ Decision.patch := by
    unfold naviDecide
    split_ifs <;> simp
  refine ⟨(hb strict).1, (hb strict).2, hn.1, hn.2, ?_, ?_⟩
  · unfold bo3Decide
    split_ifs with hc
    · simp only [Bool.and_eq_true] at hc
      simp only [Bo3.has_duplicate_event, listEvents, List.any_eq_true, List.mem_filter,
        Bool.and_eq_true, decide_eq_true_eq] at hc
      obtain ⟨hs, ev, ⟨hev, ⟨h1, h2⟩, h3⟩, h4⟩ := hc
      exact ⟨fun _ => ⟨hs, ev, hev, h1, h2, h3, h4⟩, fun _ => rfl⟩
    · constructor
      · intro h
        simp at h
      · intro ⟨hs, ev, hev, h1, h2, h3, h4⟩
        exact absurd (by
          simp only [Bool.and_eq_true]
          refine ⟨hs, ?_⟩
          simp only [Bo3.has_duplicate_event, listEvents, List.any_eq_true, List.mem_filter,
            Bool.and_eq_true, decide_eq_true_eq]
          exact ⟨ev, ⟨hev, ⟨h1, h2⟩, h3⟩, h4⟩) hc
  · unfold naviDecide
    split_ifs with hc
    · simp only [Navi.has_duplicate_event, listEvents, List.any_eq_true, List.mem_filter,
        Bool.and_eq_true, decide_eq_true_eq] at hc
      obtain ⟨ev, ⟨hev, ⟨h1, h2⟩, h3⟩, h4⟩ := hc
      exact ⟨fun _ => ⟨ev, hev, h1, h2, h3, h4⟩, fun _ => rfl⟩
    · constructor
      · intro h
        simp at h
      · intro ⟨ev, hev, h1, h2, h3, h4⟩
        exact absurd (by
          simp only [Navi.has_duplicate_event, listEvents, List.any_eq_true, List.mem_filter,
            Bool.and_eq_true, decide_eq_true_eq]
          exact ⟨ev, ⟨hev, ⟨h1, h2⟩, h3⟩, h4⟩) hc


/-- The dedup key of a discovered match: `(summary, start_dt_str)`. -/
def mKey (m : MatchRec) : List Nat × DT := (m.summary, m.startDT)

/-- Association lookup in the dict model. -/
def assocFind (k : List Nat × DT) : List ((List Nat × DT) × MatchRec) → Option MatchRec
  | [] => none
  | (k', v) :: rest => if k' = k then some v else assocFind k rest

/-- The last record of `ms` carrying key `k` (what a Python dict stores
after the fill loop). -/
def lastWithKey (k : List Nat × DT) (ms : List MatchRec) : Option MatchRec :=
  ms.reverse.find? (fun m => decide (mKey m = k))

/-- First-seen deduplication of a key list (a Python dict's key order). -/
def keyOrder (ks0 ks : List (List Nat × DT)) : List (List Nat × DT) :=
  ks.foldl (fun acc k => if k ∈ acc then acc else acc ++ [k]) ks0

theorem upsert_keys (k : List Nat × DT) (v : MatchRec)
    (acc : List ((List Nat × DT) × MatchRec)) :
    (upsert k v acc).map Prod.fst =
      if k ∈ acc.map Prod.fst then acc.map Prod.fst else acc.map Prod.fst ++ [k] := by
  induction acc with
  | nil => simp [upsert]
  | cons p rest ih =>
    obtain ⟨k', v'⟩ := p
    by_cases h1 : k' = k
    · subst h1
      rw [if_pos (by simp)]
      simp [upsert]
    · have hup : upsert k v ((k', v') :: rest) = (k', v') :: upsert k v rest := by
        simp [upsert, h1]
      rw [hup]
      simp only [List.map_cons]
      rw [ih]
      by_cases h2 : k ∈ rest.map Prod.fst
      · rw [if_pos h2, if_pos (by simp [h2])]
      · have hn : k ∉ ((k', v') :: rest).map Prod.fst := by
          simp only [List.map_cons, List.mem_cons]
          rintro (h | h)
          · exact h1 h.symm
          · exact h2 h
        rw [if_neg h2, if_neg (by simpa using hn)]
        simp

theorem assocFind_upsert (k k' : List Nat × DT) (v : MatchRec)
    (acc : List ((List Nat × DT) × MatchRec)) :
    assocFind k' (upsert k v acc) = if k' = k then some v else assocFind k' acc := by
  induction acc with
  | nil =>
    by_cases h : k' = k
    · subst h
      simp [upsert, assocFind]
    · have h' : ¬(k = k') := fun hh => h hh.symm
      simp [upsert, assocFind, h, h']
  | cons p rest ih =>
    obtain ⟨k1, v1⟩ := p
    by_cases h1 : k1 = k <;> by_cases h2 : k' = k <;> by_cases h3 : k1 = k' <;>
      simp_all [upsert, assocFind]

theorem dedupFold_keys (ms : List MatchRec) (acc : List ((List Nat × DT) × MatchRec)) :
    (dedupFold acc ms).map Prod.fst = keyOrder (acc.map Prod.fst) (ms.map mKey) := by
  induction ms generalizing acc with
  | nil => simp [dedupFold, keyOrder]
  | cons m rest ih =>
    simp only [dedupFold, List.map_cons, keyOrder, List.foldl_cons]
    rw [ih]
    simp only [keyOrder, upsert_keys]
    rfl

theorem dedupFold_find (ms : List MatchRec) (acc : List ((List Nat × DT) × MatchRec))
    (k : List Nat × DT) :
    assocFind k (dedupFold acc ms) =
      ((lastWithKey k ms).orElse (fun _ => assocFind k acc)) := by
  induction ms generalizing acc with
  | nil => simp [dedupFold, lastWithKey, Option.orElse]
  | cons m rest ih =>
    have hlast : lastWithKey k (m :: rest) =
        (lastWithKey k rest).orElse (fun _ => if mKey m = k then some m else none) := by
      simp only [lastWithKey, List.reverse_cons, List.find?_append]
      cases hfind : List.find? (fun x => decide (mKey x = k)) rest.reverse with
      | none =>
        by_cases hm : mKey m = k <;> simp [List.find?, hm, Option.orElse]
      | some r => simp [Option.orElse]
    simp only [dedupFold]
    rw [ih, hlast]
    cases hl : lastWithKey k rest with
    | some r => simp [Option.orElse]
    | none =>
      simp only [Option.orElse, Option.none_orElse]
      rw [assocFind_upsert]
      by_cases hm : mKey m = k
      · rw [if_pos (show k = (m.summary, m.startDT) from hm.symm), if_pos hm]
      · rw [if_neg (show ¬(k = (m.summary, m.startDT)) from fun hh => hm hh.symm),
          if_neg hm]

theorem upsert_pairs (k : List Nat × DT) (v : MatchRec)
    (acc : List ((List Nat × DT) × MatchRec)) (hk : k = mKey v)
    (hacc : ∀ p ∈ acc, p.1 = mKey p.2) : ∀ p ∈ upsert k v acc, p.1 = mKey p.2 := by
  induction acc with
  | nil =>
    intro p hp
    simp only [upsert, List.mem_singleton] at hp
    simp [hp, hk]
  | cons q qs ih =>
    obtain ⟨k1, v1⟩ := q
    intro p hp
    simp only [upsert] at hp
    split_ifs at hp with h1
    · rcases List.mem_cons.mp hp with h | h
      · subst h
        rw [show ((k1, v) : (List Nat × DT) × MatchRec).1 = k1 from rfl, h1, hk]
      · exact hacc p (List.mem_cons_of_mem _ h)
    · rcases List.mem_cons.mp hp with h | h
      · subst h
        exact hacc (k1, v1) (by simp)
      · exact ih (fun q hq => hacc q (List.mem_cons_of_mem _ hq)) p h

theorem dedupFold_pairs (ms : List MatchRec) (acc : List ((List Nat × DT) × MatchRec))
    (hacc : ∀ p ∈ acc, p.1 = mKey p.2) :
    ∀ p ∈ dedupFold acc ms, p.1 = mKey p.2 := by
  induction ms generalizing acc with
  | nil => simpa [dedupFold] using hacc
  | cons m rest ih =>
    simp only [dedupFold]
    exact ih _ (upsert_pairs (m.summary, m.startDT) m acc rfl hacc)

theorem assocFind_of_mem (l : List ((List Nat × DT) × MatchRec)) (k : List Nat × DT)
    (v : MatchRec) (hnd : (l.map Prod.fst).Nodup) (hmem : (k, v) ∈ l) :
    assocFind k l = some v := by
  induction l with
  | nil => simp at hmem
  | cons p rest ih =>
    obtain ⟨k1, v1⟩ := p
    simp only [List.map_cons, List.nodup_cons] at hnd
    rcases List.mem_cons.mp hmem with h | h
    · injection h with h1 h2
      subst h1
      subst h2
      simp [assocFind]
    · have hne : k1 ≠ k := by
        intro he
        subst he
        exact hnd.1 (by simpa using List.mem_map_of_mem Prod.fst h)
      simp only [assocFind, if_neg hne]
      exact ih hnd.2 h

theorem keyOrder_nodup (ks : List (List Nat × DT)) (ks0 : List (List Nat × DT))
    (h0 : ks0.Nodup) : (keyOrder ks0 ks).Nodup := by
  induction ks generalizing ks0 with
  | nil => simpa [keyOrder]
  | cons k rest ih =>
    simp only [keyOrder, List.foldl_cons]
    split_ifs with h1
    · exact ih ks0 h0
    · exact ih (ks0 ++ [k]) (by simp [List.nodup_append, h0, h1])

theorem mem_keyOrder (k : List Nat × DT) (ks ks0 : List (List Nat × DT))
    (h : k ∈ ks0 ∨ k ∈ ks) : k ∈ keyOrder ks0 ks := by
  induction ks generalizing ks0 with
  | nil => simpa [keyOrder] using h.resolve_right (by simp)
  | cons k' rest ih =>
    simp only [keyOrder, List.foldl_cons]
    split_ifs with h1
    · refine ih ks0 ?_
      rcases h with h | h
      · exact Or.inl h
      · rcases List.mem_cons.mp h with h2 | h2
        · exact Or.inl (h2 ▸ h1)
        · exact Or.inr h2
    · refine ih (ks0 ++ [k']) ?_
      rcases h with h | h
      · exact Or.inl (by simp [h])
      · rcases List.mem_cons.mp h with h2 | h2
        · exact Or.inl (by simp [h2])
        · exact Or.inr h2

/-- Two aggregated candidates sharing the dedup key but differing in their
stored link. -/
def c3m1 : MatchRec :=
  ⟨strCodes (r"Alpha vs Beta"), ⟨2025, 9, 18, 21, 30⟩, ⟨2025, 9, 18, 23, 30⟩,
   strCodes (r"https://bo3.gg/matches/first"), [], []⟩

/-- The later-discovered duplicate of `c3m1`. -/
def c3m2 : MatchRec :=
  ⟨strCodes (r"Alpha vs Beta"), ⟨2025, 9, 18, 21, 30⟩, ⟨2025, 9, 18, 23, 30⟩,
   strCodes (r"https://bo3.gg/matches/second"), [], []⟩

/-- C3 counterexample: two candidates with the same
`(summary, startInstant)` key but different records — the aggregator keeps
the later-discovered one, not the first-seen one the claim requires. -/
theorem claim_C3_counterexample :
    dedupMatches [c3m1, c3m2] = [c3m2] ∧ c3m2 ≠ c3m1 := by
  refine ⟨by decide, by decide⟩

/-- C3 (amended): the aggregated output has exactly one candidate per
distinct `(summary, startInstant)` key — every input key is represented,
the key list is duplicate-free, in order of each key's first occurrence —
but the record kept for a key is the last-discovered duplicate (a Python
dict overwrite), not the first-seen one. -/
theorem claim_C3_dedup (ms : List MatchRec) :
    (dedupMatches ms).map mKey = keyOrder [] (ms.map mKey) ∧
    ((dedupMatches ms).map mKey).Nodup ∧
    (∀ m ∈ ms, mKey m ∈ (dedupMatches ms).map mKey) ∧
    (∀ m' ∈ dedupMatches ms, lastWithKey (mKey m') ms = some m') := by
  have hpairs : ∀ p ∈ dedupFold [] ms, p.1 = mKey p.2 :=
    dedupFold_pairs ms [] (by simp)
  have hkeys : (dedupMatches ms).map mKey = (dedupFold [] ms).map Prod.fst := by
    unfold dedupMatches
    rw [List.map_map]
    refine List.map_congr_left (fun p hp => ?_)
    exact (hpairs p hp).symm
  have hko : (dedupMatches ms).map mKey = keyOrder [] (ms.map mKey) := by
    rw [hkeys, dedupFold_keys]
    simp
  refine ⟨hko, ?_, ?_, ?_⟩
  · rw [hko]
    exact keyOrder_nodup _ [] (by simp)
  · intro m hm
    rw [hko]
    exact mem_keyOrder (mKey m) (ms.map mKey) [] (Or.inr (List.mem_map_of_mem mKey hm))
  · intro m' hm'
    obtain ⟨p, hp, hpm⟩ := List.mem_map.mp hm'
    have hfst : p.1 = mKey m' := hpm ▸ hpairs p hp
    have hnd : ((dedupFold [] ms).map Prod.fst).Nodup := by
      rw [← hkeys, hko]
      exact keyOrder_nodup _ [] (by simp)
    have hfind : assocFind (mKey m') (dedupFold [] ms) = some m' := by
      refine assocFind_of_mem _ _ _ hnd ?_
      have : p = (mKey m', m') := by
        obtain ⟨p1, p2⟩ := p
        simp only at hpm hfst
        rw [hfst, hpm]
      exact this ▸ hp
    have := dedupFold_find ms [] (mKey m')
    rw [hfind] at this
    cases hl : lastWithKey (mKey m') ms with
    | none =>
      rw [hl] at this
      simp [Option.orElse, assocFind] at this
    | some r =>
      rw [hl] at this
      simp only [Option.orElse] at this
      simpa using this.symm

/-- Witness for C3 at a concrete list: the two-duplicate input. -/
theorem claim_C3_dedup_witness :
    (dedupMatches [c3m1, c3m2]).map mKey = keyOrder [] ([c3m1, c3m2].map mKey) ∧
    lastWithKey (mKey c3m2) [c3m1, c3m2] = some c3m2 :=
  ⟨(claim_C3_dedup [c3m1, c3m2]).1,
   (claim_C3_dedup [c3m1, c3m2]).2.2.2 c3m2 (by decide)⟩

theorem firstSome_some {α β : Type} (f : α → Option β) (xs : List α) (b : β)
    (h : firstSome f xs = some b) : ∃ x ∈ xs, f x = some b := by
  induction xs with
  | nil => simp [firstSome] at h
  | cons x rest ih =>
    simp only [firstSome] at h
    cases hx : f x with
    | some b' =>
      rw [hx] at h
      simp only [Option.orElse] at h
      exact ⟨x, by simp, by rw [hx, h]⟩
    | none =>
      rw [hx] at h
      simp only [Option.orElse] at h
      obtain ⟨y, hy1, hy2⟩ := ih h
      exact ⟨y, by simp [hy1], hy2⟩

theorem composeTime_ok (y mo d : Nat) (tt : List Nat) (dt : DT)
    (h : composeTime y mo d tt = some dt) : DTOk dt := by
  unfold composeTime at h
  cases h1 : splitColon2 tt with
  | none => rw [h1] at h; cases h
  | some p =>
    obtain ⟨hs0, ms0⟩ := p
    rw [h1] at h
    dsimp only at h
    cases h2 : pyIntOpt hs0 with
    | none => rw [h2] at h; cases h
    | some hh =>
      cases h3 : pyIntOpt ms0 with
      | none => rw [h2, h3] at h; cases h
      | some mi =>
        rw [h2, h3] at h
        exact (mkDateTime_ok _ _ _ _ _ _ h).1

theorem strptimeFull_ok (names : List (List Nat)) (l : List Nat) (t : DT)
    (h : strptimeFull names l = some t) : DTOk t := by
  unfold strptimeFull at h
  cases h1 : matchMonthName names l with
  | none => rw [h1] at h; cases h
  | some p =>
    obtain ⟨m, rest⟩ := p
    rw [h1] at h
    dsimp only at h
    split_ifs at h with hws1
    obtain ⟨dr, _, h⟩ := firstSome_some _ _ _ h
    split_ifs at h with hws2
    split at h
    · split_ifs at h with hdig hws3
      obtain ⟨hr, _, h⟩ := firstSome_some _ _ _ h
      split at h
      · obtain ⟨mr, _, h⟩ := firstSome_some _ _ _ h
        split_ifs at h with hend
        exact (mkDateTime_ok _ _ _ _ _ _ h).1
      · cases h
    · cases h

theorem strptimeFullMonthDay_ok (l : List Nat) (t : DT)
    (h : strptimeFullMonthDay l = some t) : DTOk t := by
  unfold strptimeFullMonthDay at h
  cases h1 : strptimeFull MONTH_ABBR l with
  | some t' =>
    rw [h1] at h
    simp only [Option.orElse] at h
    cases h
    exact strptimeFull_ok _ _ _ h1
  | none =>
    rw [h1] at h
    simp only [Option.orElse] at h
    exact strptimeFull_ok _ _ _ h

theorem bo3StartPart_ok (scrapedUtc : Bool) (href : List Nat) (today : Ymd)
    (dOpt tOpt : Option (List Nat)) (s : DT)
    (h : (if truthy dOpt && truthy tOpt then
        match strptimeMonthDay (dOpt.getD []) with
        | some (mo, da) =>
          match composeTime (infer_year href mo da today) mo da (tOpt.getD []) with
          | some naive => some (if scrapedUtc then utcToKyiv naive else naive)
          | none => none
        | none => none
      else none) = some s) : DTOk s := by
  split_ifs at h with ht hu
  · split at h
    · split at h
      · rename_i naive hcomp
        cases h
        exact (utcToKyiv_spec naive (composeTime_ok _ _ _ _ _ hcomp)).1
      · cases h
    · cases h
  · split at h
    · split at h
      · rename_i naive hcomp
        cases h
        exact composeTime_ok _ _ _ _ _ hcomp
      · cases h
    · cases h

theorem bo3ComputeStart_ok (fetchDetail : List Nat → Option DT) (scrapedUtc : Bool)
    (today : Ymd) (row : BRow)
    (hfetch : ∀ href dt, fetchDetail href = some dt → DTOk dt) (s : DT)
    (h : bo3ComputeStart fetchDetail scrapedUtc today row = some s) : DTOk s := by
  unfold bo3ComputeStart at h
  dsimp only at h
  split at h
  · rename_i s' heq
    cases h
    exact bo3StartPart_ok scrapedUtc row.href today _ _ _ heq
  · split_ifs at h with hh
    exact hfetch _ _ h

theorem bo3RowCandidate_shape (fetchDetail : List Nat → Option DT) (scrapedUtc : Bool)
    (today : Ymd) (row : BRow) (c : MatchRec)
    (h : bo3RowCandidate fetchDetail scrapedUtc today row = some c) :
    ∃ s, bo3ComputeStart fetchDetail scrapedUtc today row = some s ∧
      c.startDT = s ∧ c.endDT = addMinutes s 120 := by
  unfold bo3RowCandidate at h
  split at h
  · cases h
  · split at h
    · cases h
    · rename_i s heq
      cases h
      exact ⟨s, heq, rfl, rfl⟩

theorem rawChunkEmit_ok (scrapedUtc : Bool) (today : Ymd) (href chunk : List Nat)
    (c : MatchRec) (h : rawChunkEmit scrapedUtc today href chunk = some c) :
    DTOk c.startDT ∧ c.endDT = addMinutes c.startDT 120 := by
  unfold rawChunkEmit at h
  split at h
  · cases h
  · dsimp only at h
    split at h
    · cases h
    · split at h
      · cases h
      · split at h
        · cases h
        · rename_i naive hcomp
          cases h
          refine ⟨?_, rfl⟩
          dsimp only
          split_ifs with hu
          · exact (utcToKyiv_spec naive (composeTime_ok _ _ _ _ _ hcomp)).1
          · exact composeTime_ok _ _ _ _ _ hcomp

theorem naviRowCandidate_ok (sysYear : Nat) (row : NRow) (c : MatchRec)
    (h : naviRowCandidate sysYear row = some c) :
    DTOk c.startDT ∧ c.endDT = addMinutes c.startDT 120 := by
  unfold naviRowCandidate at h
  split at h
  · cases h
  · dsimp only at h
    split at h
    · split at h
      · cases h
      · rename_i start hstrp
        cases h
        exact ⟨strptimeFullMonthDay_ok _ _ hstrp, rfl⟩
    · cases h

/-- **C9** — candidate duration invariant: every candidate emitted by any of
the three discovery paths (`parse_table_rows`, `raw_scan_matches`,
`parse_upcoming_matches`) has `endDT = addMinutes startDT 120` — the fixed
two-hour duration constant, never derived from the source document — its
start is a valid datetime, and therefore its end instant is exactly 120
minutes after, in particular strictly later than, its start instant (the
detail-fetch oracle is assumed to return valid datetimes, as
`parse_detail_datetime` only builds them through the `datetime`
constructor). -/
theorem claim_C9_duration (fetchDetail : List Nat → Option DT)
    (hfetch : ∀ href dt, fetchDetail href = some dt → DTOk dt)
    (scrapedUtc : Bool) (today : Ymd) (rows : List BRow) (html : List Nat)
    (sysYear : Nat) (nrows : List NRow) (c : MatchRec)
    (hc : c ∈ parse_table_rows fetchDetail scrapedUtc today rows ∨
          c ∈ raw_scan_matches scrapedUtc today html ∨
          c ∈ parse_upcoming_matches sysYear nrows) :
    c.endDT = addMinutes c.startDT 120 ∧ DTOk c.startDT ∧
      toMinutes c.endDT = toMinutes c.startDT + 120 ∧
      toMinutes c.startDT < toMinutes c.endDT := by
  have key : DTOk c.startDT ∧ c.endDT = addMinutes c.startDT 120 := by
    rcases hc with hc | hc | hc
    · obtain ⟨row, _, hrow⟩ := List.mem_filterMap.mp hc
      obtain ⟨s, hs, h1, h2⟩ := bo3RowCandidate_shape _ _ _ _ _ hrow
      refine ⟨?_, by rw [h1, h2]⟩
      rw [h1]
      exact bo3ComputeStart_ok _ _ _ _ hfetch _ hs
    · obtain ⟨href, _, hhref⟩ := List.mem_filterMap.mp hc
      obtain ⟨i, _, hemit⟩ := firstSome_some _ _ _ hhref
      exact rawChunkEmit_ok _ _ _ _ _ hemit
    · obtain ⟨row, _, hrow⟩ := List.mem_filterMap.mp hc
      exact naviRowCandidate_ok _ _ _ hrow
  obtain ⟨hok, hend⟩ := key
  have hmin := (addMinutes_spec c.startDT 120 hok).2
  exact ⟨hend, hok, by rw [hend, hmin],
    by rw [hend]; exact addMinutes_lt _ _ hok (by omega)⟩

/-- C9 at a concrete input: the candidate of the C5 row, discovered through
the table path, satisfies the duration invariant. -/
theorem claim_C9_duration_witness :
    c5Cand.endDT = addMinutes c5Cand.startDT 120 ∧ DTOk c5Cand.startDT ∧
      toMinutes c5Cand.endDT = toMinutes c5Cand.startDT + 120 ∧
      toMinutes c5Cand.startDT < toMinutes c5Cand.endDT :=
  claim_C9_duration (fun _ => none) (by intro href dt h; cases h) true ⟨2025, 9, 1⟩
    [c5Row] [] 0 [] c5Cand (Or.inl (by decide))

theorem anyFilter {α : Type} (p q : α → Bool) (l : List α) :
    (l.filter p).any q = l.any (fun a => p a && q a) := by
  induction l with
  | nil => rfl
  | cons x xs ih =>
    by_cases hp : p x = true <;> simp [List.filter_cons, hp, List.any_cons, ih]

theorem bo3HasDup_any (evs : List GEvent) (m : MatchRec) :
    Bo3.has_duplicate_event evs (matchStartMin m) m.summary = evs.any (evMatchesB m) := by
  unfold Bo3.has_duplicate_event listEvents
  rw [anyFilter]
  rfl

theorem containsSub_of_starts (p l : List Nat) (h : p <+: l) : containsSub p l = true := by
  cases l with
  | nil =>
    obtain rfl : p = [] := List.prefix_nil.mp h
    rfl
  | cons c t =>
    unfold containsSub
    simp [List.isPrefixOf_iff_prefix, h]

theorem evMatchesB_self (m : MatchRec) (hok : DTOk m.startDT)
    (hend : m.endDT = addMinutes m.startDT 120) : evMatchesB m (toGEvent m) = true := by
  have h1 : matchEndMin m = matchStartMin m + 120 := by
    unfold matchEndMin matchStartMin
    rw [hend, (addMinutes_spec m.startDT 120 hok).2]
    push_cast
    ring
  have hpre : bo3DupKey m.summary <+: m.summary := bo3DupKey_prefix m.summary
  unfold evMatchesB toGEvent
  dsimp only
  simp only [h1, Bool.and_eq_true, decide_eq_true_eq]
  exact ⟨⟨⟨by omega, by omega⟩, containsSub_of_starts _ _ hpre⟩,
    List.isPrefixOf_iff_prefix.mpr hpre⟩

theorem bo3_create_all (ms : List MatchRec) (store : List GEvent) (cr sk : Nat)
    (hstore : ∀ m ∈ ms, ∀ ev ∈ store, evMatchesB m ev = false)
    (hpw : List.Pairwise (fun a b => evMatchesB b (toGEvent a) = false) ms) :
    Bo3.create_events true store cr sk ms = ⟨store ++ ms.map toGEvent, cr + ms.length, sk, 0⟩ := by
  induction ms generalizing store cr with
  | nil => simp [Bo3.create_events]
  | cons m rest ih =>
    obtain ⟨hm, hpw2⟩ := List.pairwise_cons.mp hpw
    have hdup : Bo3.has_duplicate_event store (matchStartMin m) m.summary = false := by
      rw [bo3HasDup_any]
      exact List.any_eq_false.mpr (fun ev hev => by
        simp [hstore m (List.mem_cons_self m rest) ev hev])
    have hdec : bo3Decide true store m = Decision.create := by
      simp [bo3Decide, hdup]
    have hst2 : ∀ m2 ∈ rest, ∀ ev ∈ store ++ [toGEvent m], evMatchesB m2 ev = false := by
      intro m2 hm2 ev hev
      rcases List.mem_append.mp hev with h | h
      · exact hstore m2 (List.mem_cons_of_mem _ hm2) ev h
      · rw [List.mem_singleton.mp h]
        exact hm m2 hm2
    simp only [Bo3.create_events, hdec]
    rw [if_neg (by intro hcon; cases hcon)]
    rw [ih (store ++ [toGEvent m]) (cr + 1) hst2 hpw2]
    simp [List.append_assoc]
    omega

theorem bo3_skip_all (ms : List MatchRec) (store : List GEvent) (cr sk : Nat)
    (hself : ∀ m ∈ ms, ∃ ev ∈ store, evMatchesB m ev = true) :
    Bo3.create_events true store cr sk ms = ⟨store, cr, sk + ms.length, 0⟩ := by
  induction ms generalizing sk with
  | nil => simp [Bo3.create_events]
  | cons m rest ih =>
    have hdup : Bo3.has_duplicate_event store (matchStartMin m) m.summary = true := by
      rw [bo3HasDup_any]
      obtain ⟨ev, hev, hmm⟩ := hself m (List.mem_cons_self m rest)
      exact List.any_eq_true.mpr ⟨ev, hev, hmm⟩
    have hdec : bo3Decide true store m = Decision.skip := by
      simp [bo3Decide, hdup]
    simp only [Bo3.create_events, hdec]
    rw [if_pos trivial]
    rw [ih (sk + 1) (fun m2 hm2 => hself m2 (List.mem_cons_of_mem _ hm2))]
    simp
    omega

/-- C1 counterexample: with the shipped default `STRICT_DUP_CHECK = False`
the duplicate check is bypassed, so a second identical run against the
store produced by the first re-creates its candidate (one more create,
zero skips) even though the duplicate check, had it run, would have found
the event. -/
theorem claim_C1_counterexample :
    STRICT_DUP_CHECK = false ∧
    (Bo3.run STRICT_DUP_CHECK [] [c2Cand]).created = 1 ∧
    (Bo3.run STRICT_DUP_CHECK (Bo3.run STRICT_DUP_CHECK [] [c2Cand]).store
      [c2Cand]).created = 1 ∧
    Bo3.has_duplicate_event (Bo3.run STRICT_DUP_CHECK [] [c2Cand]).store
      (matchStartMin c2Cand) c2Cand.summary = true := by
  refine ⟨rfl, by decide, by decide, by decide⟩

/-- **C1** — pipeline idempotence holds only with the strict duplicate
check enabled: against an initially empty store, for candidates that are
pairwise non-matching (no later candidate's window-and-prefix test accepts
an earlier candidate's event) and well-formed (valid start, end = start
plus the fixed two hours), the first run creates every candidate and skips
none, and a second identical run against the resulting store creates
nothing and skips every candidate; no patch is ever issued (`patched = 0`
in both runs — neither script contains a patch call). With the shipped
default `STRICT_DUP_CHECK = False` the second run instead re-creates every
candidate. -/
theorem claim_C1_idempotent (ms : List MatchRec)
    (hgood : ∀ m ∈ ms, DTOk m.startDT ∧ m.endDT = addMinutes m.startDT 120)
    (hpw : List.Pairwise (fun a b => evMatchesB b (toGEvent a) = false) ms) :
    Bo3.run true [] ms = ⟨ms.map toGEvent, ms.length, 0, 0⟩ ∧
    Bo3.run true (ms.map toGEvent) ms = ⟨ms.map toGEvent, 0, ms.length, 0⟩ := by
  constructor
  · have h := bo3_create_all ms [] 0 0 (by intro m _ ev hev; cases hev) hpw
    simpa [Bo3.run] using h
  · have h := bo3_skip_all ms (ms.map toGEvent) 0 0 (by
      intro m hm
      exact ⟨toGEvent m, List.mem_map_of_mem toGEvent hm,
        evMatchesB_self m (hgood m hm).1 (hgood m hm).2⟩)
    simpa [Bo3.run] using h

/-- C1 at a concrete input: one candidate, strict check on — created once,
then skipped on the second run. -/
theorem claim_C1_idempotent_witness :
    Bo3.run true [] [c2Cand] = ⟨[toGEvent c2Cand], 1, 0, 0⟩ ∧
    Bo3.run true [toGEvent c2Cand] [c2Cand] = ⟨[toGEvent c2Cand], 0, 1, 0⟩ :=
  claim_C1_idempotent [c2Cand] (by intro m hm; rw [List.mem_singleton.mp hm]; exact ⟨by decide, by decide⟩)
    (List.pairwise_singleton _ _)

/-- A navi-variant row with no team names at all and nothing referring to
the tracked team: link present, a date and a time. -/
def c7Row : NRow :=
  ⟨true, strCodes (r"/matches/astralis-vs-faze-31-08-2025"), [], [], [],
   some (strCodes (r"15:30")), some (strCodes (r"Aug 31 15:30"))⟩

/-- C7 counterexample: the navi parser emits a candidate
"Natus Vincere vs TBD" for a row whose fields nowhere confirm the tracked
team's participation — the claim requires such a row to be dropped. -/
theorem claim_C7_counterexample :
    parse_upcoming_matches 2025 [c7Row] =
      [⟨strCodes (r"Natus Vincere vs TBD"), ⟨2025, 8, 31, 15, 30⟩, ⟨2025, 8, 31, 17, 30⟩,
        strCodes (r"https://bo3.gg/matches/astralis-vs-faze-31-08-2025"), [], []⟩] := by
  decide

/-- C7 (amended): team resolution as the code implements it.  In the bo3
table parser: two dedicated team fields are used as they come (equality of
the two names is never checked); otherwise the free-text "A vs B" pattern;
otherwise the row is dropped unless the raw text contains the tracked team
("Natus Vincere" literally, or "NAVI" case-insensitively), in which case
the candidate gets the placeholder opponent "TBD"; a team-less row yields
no candidate.  The navi variant substitutes "TBD" unconditionally: one
name gives "name vs TBD", none gives "Natus Vincere vs TBD", with no
raw-text confirmation. -/
theorem claim_C7_placeholder (row : BRow) (teams : List (List Nat))
    (fetchDetail : List Nat → Option DT) (scrapedUtc : Bool) (today : Ymd) :
    (row.teamNames.length ≥ 2 →
      bo3SelectTeams row = some (row.teamNames.getD 0 [], row.teamNames.getD 1 [])) ∧
    (row.teamNames.length < 2 → ∀ a b, searchVs row.rawText = some (a, b) →
      bo3SelectTeams row = some (pyStrip a, pyStrip b)) ∧
    (row.teamNames.length < 2 → searchVs row.rawText = none →
      containsNaviRaw row.rawText = false → bo3SelectTeams row = none) ∧
    (row.teamNames.length < 2 → searchVs row.rawText = none →
      containsNaviRaw row.rawText = true →
      bo3SelectTeams row = some (strCodes (r"Natus Vincere"), strCodes (r"TBD"))) ∧
    (bo3SelectTeams row = none →
      bo3RowCandidate fetchDetail scrapedUtc today row = none) ∧
    (teams.length = 1 → naviSelectTeams teams = (teams.getD 0 [], strCodes (r"TBD"))) ∧
    (teams.length = 0 →
      naviSelectTeams teams = (strCodes (r"Natus Vincere"), strCodes (r"TBD"))) := by
  refine ⟨?_, ?_, ?_, ?_, ?_, ?_, ?_⟩
  · intro h
    unfold bo3SelectTeams
    rw [if_pos h]
  · intro h a b hvs
    unfold bo3SelectTeams
    rw [if_neg (by omega), hvs]
  · intro h hvs hna
    unfold bo3SelectTeams
    rw [if_neg (by omega), hvs]
    simp [hna]
  · intro h hvs hna
    unfold bo3SelectTeams
    rw [if_neg (by omega), hvs]
    simp [hna]
  · intro h
    unfold bo3RowCandidate
    rw [h]
  · intro h
    unfold naviSelectTeams
    rw [if_neg (by omega), if_pos h]
  · intro h
    unfold naviSelectTeams
    rw [if_neg (by omega), if_neg (by omega)]

/-- Witness for C7 at concrete inputs: a two-field row, a row resolved by
the free-text pattern, a dropped row, a confirmed TBD row, and the navi
one-name and no-name cases. -/
theorem claim_C7_placeholder_witness :
    bo3SelectTeams c5Row = some (strCodes (r"Alpha"), strCodes (r"Beta")) ∧
    bo3SelectTeams c8BadRow = none ∧
    naviSelectTeams [strCodes (r"Navi")] = (strCodes (r"Navi"), strCodes (r"TBD")) ∧
    naviSelectTeams [] = (strCodes (r"Natus Vincere"), strCodes (r"TBD")) :=
  ⟨(claim_C7_placeholder c5Row [] (fun _ => none) true ⟨2025, 9, 1⟩).1 (by decide),
   (claim_C7_placeholder c8BadRow [] (fun _ => none) true ⟨2025, 9, 1⟩).2.2.1
     (by decide) (by decide) (by decide),
   (claim_C7_placeholder c5Row [strCodes (r"Navi")] (fun _ => none) true ⟨2025, 9, 1⟩).2.2.2.2.2.1
     (by decide),
   (claim_C7_placeholder c5Row [] (fun _ => none) true ⟨2025, 9, 1⟩).2.2.2.2.2.2 (by decide)⟩

end NaviBot
